import Mathlib

/-!
# Name Resolution & Clarification Engine — verification development

A shallow embedding of the name-resolution core of the meeting-assistant
repository, together with theorems settling the specification claims.

Embedded source artefacts:
* `VectorNameResolver._index_users` / `VectorNameResolver.search_names`
  (interactive resolver, `main.py`),
* `VectorDatabaseManager._index_users` / `VectorDatabaseManager.search_names`
  (package resolver, `src/meeting_assistant/core/vector_database.py`),
* the attendee-merging portion of the tool
  `create_meeting_with_resolved_names` (`main.py`).

Modelling conventions:
* Python strings are modelled through executable functions on `List Char`
  (`String.replace`, `String.trim`, … of the Lean library are
  position-based and do not reduce in the kernel).  `str.lower()` is
  modelled for ASCII plus the Turkish letters occurring in the code base;
  `str.strip()`/`str.split()` strip the ASCII whitespace characters.
* Similarities and distances are rationals (`ℚ`); the floating-point
  rounding of the source is idealised as exact rational arithmetic, and
  Python's 3-decimal `round` (banker's rounding on binary floats) is
  modelled as rounding half away from the nearest-integer tie — the two
  agree except on exact half-thousandths, which are not representable
  as the result of the float computations in question anyway.
* The embedding backend (sentence-transformer + Chroma query) is an
  external dependency; it is abstracted as a function
  `hitsOf : String → List Hit` returning the raw hits (metadata and
  distance) for a query text, exactly the data the source reads from
  `collection.query(...)`.  Everything the Python code computes *from*
  those hits is embedded concretely.
* Python's stable `list.sort(key=..., reverse=True)` is modelled by
  insertion sort with the reflexive "greater-or-equal similarity"
  comparison, which is stable with exactly the same tie behaviour
  (earlier element stays first) and computes the same list as any
  stable sort.
-/

/-! ## Python string primitives (executable `List Char` models) -/

/-- ASCII whitespace recognised by `str.strip()` / `str.split()`.
(Python also strips some further Unicode space characters; none occur
in this code base.) -/
def isPySpace (c : Char) : Bool :=
  c = ' ' || c = '\t' || c = '\n' || c = '\r' || c = '\x0b' || c = '\x0c'

/-- One character of `str.lower()`: ASCII letters, plus the Turkish
uppercase letters appearing in the repository's data (`Ç Ğ İ Ö Ş Ü`).
`'İ'` lowercases to the two-character sequence `i + COMBINING DOT ABOVE`,
as in Python.  Other characters are returned unchanged. -/
def pyLowerOne (c : Char) : List Char :=
  if 'A' ≤ c && c ≤ 'Z' then [Char.ofNat (c.toNat + 32)]
  else if c = 'Ç' then ['ç']
  else if c = 'Ğ' then ['ğ']
  else if c = 'İ' then ['i', '̇']
  else if c = 'Ö' then ['ö']
  else if c = 'Ş' then ['ş']
  else if c = 'Ü' then ['ü']
  else [c]

/-- `s.lower()`. -/
def pyLower (s : String) : String := ⟨s.data.flatMap pyLowerOne⟩

/-- Characters of `s.strip()`. -/
def pyStripChars (l : List Char) : List Char :=
  ((l.dropWhile isPySpace).reverse.dropWhile isPySpace).reverse

/-- `s.strip()`. -/
def pyStrip (s : String) : String := ⟨pyStripChars s.data⟩

/-- Accumulator-based worker for `str.split()` (split on whitespace
runs, dropping empty pieces); `word` holds the current token reversed. -/
def pySplitAux : List Char → List Char → List String
  | [], word => if word.isEmpty then [] else [⟨word.reverse⟩]
  | c :: cs, word =>
    if isPySpace c then
      if word.isEmpty then pySplitAux cs []
      else ⟨word.reverse⟩ :: pySplitAux cs []
    else pySplitAux cs (c :: word)

/-- `s.split()` — whitespace-delimited tokens, empties dropped. -/
def pySplit (s : String) : List String := pySplitAux s.data []

/-- If `pat` is a prefix of `l`, return the remainder. -/
def dropPat : List Char → List Char → Option (List Char)
  | [], l => some l
  | _ :: _, [] => none
  | p :: ps, c :: cs => if p = c then dropPat ps cs else none

/-- Fuel-indexed worker for `str.replace` (left-to-right,
non-overlapping); `fuel = length of the subject` suffices for the
non-empty patterns used in the source. -/
def pyReplaceAux (pat rep : List Char) : Nat → List Char → List Char
  | 0, l => l
  | _ + 1, [] => []
  | fuel + 1, c :: cs =>
    match dropPat pat (c :: cs) with
    | some rest => rep ++ pyReplaceAux pat rep fuel rest
    | none => c :: pyReplaceAux pat rep fuel cs

/-- `s.replace(pat, rep)`. -/
def pyReplace (s pat rep : String) : String :=
  ⟨pyReplaceAux pat.data rep.data s.data.length s.data⟩

/-- Containment of `needle` in `hay` as a character list. -/
def containsChars (needle : List Char) : List Char → Bool
  | [] => needle.isEmpty
  | c :: cs => needle.isPrefixOf (c :: cs) || containsChars needle cs

/-- Python's `needle in hay` on strings (substring containment; the
empty string is contained in everything, as in Python). -/
def pyIn (needle hay : String) : Bool := containsChars needle.data hay.data

/-- Characters of `s.split('\n')` (empties kept). -/
def splitNlChars : List Char → List (List Char)
  | [] => [[]]
  | c :: cs =>
    match splitNlChars cs with
    | [] => [[c]]
    | h :: t => if c = '\n' then [] :: h :: t else (c :: h) :: t

/-- `s.split('\n')`. -/
def splitNl (s : String) : List String := (splitNlChars s.data).map (⟨·⟩)

/-- Worker: split at the first occurrence of `sep`, returning the parts
before and after it, or `none` when `sep` does not occur. -/
def splitFirstAux (sep : List Char) : List Char → Option (List Char × List Char)
  | [] => match sep with
          | [] => some ([], [])
          | _ :: _ => none
  | c :: cs =>
    match dropPat sep (c :: cs) with
    | some rest => some ([], rest)
    | none => (splitFirstAux sep cs).map (fun p => (c :: p.1, p.2))

/-- `s.split(sep)[0]` — the part before the first occurrence of `sep`
(the whole string when `sep` is absent). -/
def beforeFirst (sep s : String) : String :=
  match splitFirstAux sep.data s.data with
  | some p => ⟨p.1⟩
  | none => s

/-- `s.split(sep, 1)[1]` — the part after the first occurrence of `sep`
(the callers guard on occurrence; absent `sep` returns the string). -/
def afterFirst (sep s : String) : String :=
  match splitFirstAux sep.data s.data with
  | some p => ⟨p.2⟩
  | none => s

/-- `email.split('@')[0]` — the email local part. -/
def localPart (s : String) : String := beforeFirst "@" s

/-- `s.startswith(c)` for a single character. -/
def startsWithChar (s : String) (c : Char) : Bool := s.data.head? = some c

/-! ## Data model -/

/-- One row of the user dataframe, and equally the metadata dictionary
`{'user_id', 'full_name', 'email_address'}` attached to every indexed
variant and the `matched_user` dictionaries of the outputs. -/
structure Person where
  id : Nat
  full_name : String
  email_address : String
deriving DecidableEq, Repr

/-! ## Variant generation and index build

`VectorNameResolver._index_users` (main.py, lines 124–162) and
`VectorDatabaseManager._index_users` (vector_database.py, lines 35–77).
Both build, per user, a list of variant strings, then add each *distinct*
variant whose `strip()` is non-empty to the collection together with the
user's metadata.  `full_name.split()[0]` raises `IndexError` when the
lowered full name has no tokens, so variant generation is partial. -/

/-- The raw variant list of the interactive resolver (main.py 131–141),
in source order:
full name lowered; its diacritic-folded form; first token; last token
when there are at least two tokens, else the whole lowered name; the
lowered email local part; the local part with `'.'` replaced by `' '`.
`none` models the `IndexError` on a token-less full name. -/
def mainVariantsRaw (p : Person) : Option (List String) :=
  let full_name := pyLower p.full_name
  let email_local := pyLower (localPart p.email_address)
  match pySplit full_name with
  | [] => none
  | t0 :: ts =>
    some [full_name,
          pyReplace (pyReplace (pyReplace (pyReplace (pyReplace (pyReplace
            full_name "ç" "c") "ğ" "g") "ı" "i") "ö" "o") "ş" "s") "ü" "u",
          t0,
          if 1 < (t0 :: ts).length then (t0 :: ts).getLastD "" else full_name,
          email_local,
          pyReplace email_local "." " "]

/-- The raw variant list of the package resolver
(vector_database.py 45–56): the same six variants, followed by the
full name with `", ph.d"`/`", phd"` removed and stripped, and the full
name with `"şahin"`/`"çelik"` replaced by their ASCII forms. -/
def vdbVariantsRaw (p : Person) : Option (List String) :=
  let full_name := pyLower p.full_name
  let email_local := pyLower (localPart p.email_address)
  match pySplit full_name with
  | [] => none
  | t0 :: ts =>
    some [full_name,
          pyReplace (pyReplace (pyReplace (pyReplace (pyReplace (pyReplace
            full_name "ç" "c") "ğ" "g") "ı" "i") "ö" "o") "ş" "s") "ü" "u",
          t0,
          if 1 < (t0 :: ts).length then (t0 :: ts).getLastD "" else full_name,
          email_local,
          pyReplace email_local "." " ",
          pyStrip (pyReplace (pyReplace full_name ", ph.d" "") ", phd" ""),
          pyReplace (pyReplace full_name "şahin" "sahin") "çelik" "celik"]

/-- `for variant in set(variants): if variant.strip(): …` — duplicate
variants of one person collapse (Python set semantics; the set's
iteration order is immaterial to every claim, so first-occurrence order
is used) and blank variants are discarded. -/
def variantTexts (raw : List String) : List String :=
  raw.dedup.filter (fun v => pyStrip v != "")

/-- The indexed `(document, metadata)` pairs of one person, per resolver. -/
def mainVariantTexts (p : Person) : Option (List String) :=
  (mainVariantsRaw p).map variantTexts

/-- As `mainVariantTexts`, for the package resolver. -/
def vdbVariantTexts (p : Person) : Option (List String) :=
  (vdbVariantsRaw p).map variantTexts

/-- The index build: iterate the user rows in order, generating each
row's variants; the first row whose full name has no whitespace token
aborts the build with the propagated `IndexError` (there is no
duplicate-id or duplicate-email check anywhere in either `__init__`).
The result models the parallel `texts`/`metadatas` lists handed to
`collection.add`. -/
def indexEntries (variantsOf : Person → Option (List String)) :
    List Person → Except String (List (String × Person))
  | [] => .ok []
  | p :: rest =>
    match variantsOf p with
    | none => .error "IndexError: list index out of range"
    | some raw =>
      (indexEntries variantsOf rest).map
        (fun tail => (variantTexts raw).map (fun v => (v, p)) ++ tail)

/-- `VectorNameResolver._index_users` over a user population. -/
def mainIndexEntries : List Person → Except String (List (String × Person)) :=
  indexEntries mainVariantsRaw

/-- `VectorDatabaseManager._index_users` over a user population. -/
def vdbIndexEntries : List Person → Except String (List (String × Person)) :=
  indexEntries vdbVariantsRaw

/-! ## Similarity matching and candidate aggregation

`VectorNameResolver.search_names` (main.py 164–229) and
`VectorDatabaseManager.search_names` (vector_database.py 79–142).
The backend call
`collection.query(query_embeddings=model.encode([name.lower()]), n_results=10)`
is abstracted as `hitsOf : String → List Hit` applied to the lowered
query; each hit carries the stored metadata and the reported distance,
and the code computes `similarity = 1 - distance` from it. -/

/-- One raw hit of the vector query: metadata plus distance. -/
structure Hit where
  user_id : Nat
  full_name : String
  email_address : String
  distance : ℚ
deriving DecidableEq, Repr

/-- One entry of the `user_matches` dictionary / the `candidates`
arrays: `{'id', 'full_name', 'email_address', 'similarity'}`. -/
structure MatchCandidate where
  id : Nat
  full_name : String
  email_address : String
  similarity : ℚ
deriving DecidableEq, Repr

/-- `round(similarity, 3)` — rounding to three decimals. -/
def round3 (q : ℚ) : ℚ := ((round (q * 1000) : ℤ) : ℚ) / 1000

/-- The stored `matched_user`-style dictionary built from a candidate
(main.py 208–212 drops the `similarity` field). -/
def candPerson (c : MatchCandidate) : Person :=
  ⟨c.id, c.full_name, c.email_address⟩

/-- The dictionary update
`if user_id not in user_matches or similarity > stored: user_matches[user_id] = {…, round(similarity, 3)}`,
on the insertion-ordered association list that models the Python dict
(updating an existing key keeps its position; a new key is appended). -/
def updateUser (h : Hit) (sim : ℚ) : List MatchCandidate → List MatchCandidate
  | [] => [⟨h.user_id, h.full_name, h.email_address, round3 sim⟩]
  | c :: rest =>
    if c.id = h.user_id then
      (if c.similarity < sim then ⟨h.user_id, h.full_name, h.email_address, round3 sim⟩ else c)
        :: rest
    else c :: updateUser h sim rest

/-- Processing one raw hit: compute `similarity = 1 - distance`, keep it
only when it clears the threshold. -/
def applyHit (threshold : ℚ) (acc : List MatchCandidate) (h : Hit) : List MatchCandidate :=
  let similarity := 1 - h.distance
  if threshold ≤ similarity then updateUser h similarity acc else acc

/-- The grouping loop over the raw hits: `user_matches.values()` in
insertion order (shared verbatim by both resolvers). -/
def user_matches (threshold : ℚ) (hits : List Hit) : List MatchCandidate :=
  hits.foldl (applyHit threshold) []

/-- "Similarity at least that of": the comparison underlying
`unique_users.sort(key=lambda x: x['similarity'], reverse=True)`. -/
def simGE (a b : MatchCandidate) : Prop := b.similarity ≤ a.similarity

instance : DecidableRel simGE := fun a b =>
  inferInstanceAs (Decidable (b.similarity ≤ a.similarity))

instance : IsTotal MatchCandidate simGE := ⟨fun a b => le_total b.similarity a.similarity⟩

instance : IsTrans MatchCandidate simGE := ⟨fun _ _ _ h1 h2 => le_trans h2 h1⟩

/-- Python's stable descending sort by similarity, modelled by insertion
sort (stable, identical tie behaviour: elements with equal similarity
keep their original relative order). -/
def sortBySimilarityDesc (l : List MatchCandidate) : List MatchCandidate :=
  l.insertionSort simGE

/-- The interactive resolver's `unique_users` list for one input name
(main.py 200–201): group the hits of the lowered query by user, then
sort by similarity descending. -/
def mainUnique (hitsOf : String → List Hit) (threshold : ℚ) (name : String) :
    List MatchCandidate :=
  sortBySimilarityDesc (user_matches threshold (hitsOf (pyLower name)))

/-- A resolved entry of the interactive resolver (main.py 206–215). -/
structure MainResolvedEntry where
  input_name : String
  matched_user : Person
  match_type : String
  similarity_score : ℚ
deriving DecidableEq, Repr

/-- A `partial_matches` entry (both resolvers). -/
structure PartialMatchEntry where
  input_name : String
  candidates : List MatchCandidate
deriving DecidableEq, Repr

/-- The result dictionary of `VectorNameResolver.search_names`. -/
structure MainSearchResults where
  resolved_names : List MainResolvedEntry
  partial_matches : List PartialMatchEntry
  ambiguous_names : List String
  needs_clarification : Bool
deriving DecidableEq, Repr

/-- The per-name classification of the interactive resolver
(main.py 203–227): exactly one user ⇒ auto-resolve; several ⇒ partial
match carrying the top 5 candidates; none ⇒ unmatched. -/
inductive MainOutcome where
  | resolved (e : MainResolvedEntry)
  | ambiguous (pm : PartialMatchEntry)
  | unmatched (name : String)
deriving DecidableEq, Repr

/-- Classify one input name in the interactive resolver. -/
def mainOutcome (hitsOf : String → List Hit) (threshold : ℚ) (name : String) :
    MainOutcome :=
  match mainUnique hitsOf threshold name with
  | [u] => .resolved ⟨name, candPerson u, "vector_auto", u.similarity⟩
  | [] => .unmatched name
  | us => .ambiguous ⟨name, us.take 5⟩

namespace VectorNameResolver

/-- One iteration of the `for name in input_names` loop of
`VectorNameResolver.search_names`: blank names are skipped, otherwise
the classification appends to the corresponding result buckets. -/
def searchStep (hitsOf : String → List Hit) (threshold : ℚ)
    (acc : MainSearchResults) (name : String) : MainSearchResults :=
  if pyStrip name = "" then acc
  else
    match mainOutcome hitsOf threshold name with
    | .resolved e =>
      { acc with resolved_names := acc.resolved_names ++ [e] }
    | .ambiguous pm =>
      { acc with partial_matches := acc.partial_matches ++ [pm],
                 ambiguous_names := acc.ambiguous_names ++ [name],
                 needs_clarification := true }
    | .unmatched _ =>
      { acc with ambiguous_names := acc.ambiguous_names ++ [name],
                 needs_clarification := true }

/-- `VectorNameResolver.search_names` (main.py 164–229; the source's
default threshold is `0.7`). -/
def search_names (hitsOf : String → List Hit) (threshold : ℚ)
    (input_names : List String) : MainSearchResults :=
  input_names.foldl (searchStep hitsOf threshold) ⟨[], [], [], false⟩

end VectorNameResolver

/-- A resolved entry of the package resolver
(vector_database.py 124–128): `matched_user` keeps the full candidate
dictionary, similarity included. -/
structure VdbResolvedEntry where
  input_name : String
  matched_user : MatchCandidate
  similarity_score : ℚ
deriving DecidableEq, Repr

/-- The result dictionary of `VectorDatabaseManager.search_names`. -/
structure VdbSearchResults where
  resolved_names : List VdbResolvedEntry
  partial_matches : List PartialMatchEntry
  ambiguous_names : List String
  needs_clarification : Bool
deriving DecidableEq, Repr

/-- The per-name classification of the package resolver
(vector_database.py 120–140): it neither sorts `unique_users` nor
truncates the candidate list. -/
inductive VdbOutcome where
  | resolved (e : VdbResolvedEntry)
  | ambiguous (pm : PartialMatchEntry)
  | unmatched (name : String)
deriving DecidableEq, Repr

/-- Classify one input name in the package resolver. -/
def vdbOutcome (hitsOf : String → List Hit) (threshold : ℚ) (name : String) :
    VdbOutcome :=
  match user_matches threshold (hitsOf (pyLower name)) with
  | [u] => .resolved ⟨name, u, u.similarity⟩
  | [] => .unmatched name
  | us => .ambiguous ⟨name, us⟩

namespace VectorDatabaseManager

/-- One iteration of the name loop of
`VectorDatabaseManager.search_names`. -/
def searchStep (hitsOf : String → List Hit) (threshold : ℚ)
    (acc : VdbSearchResults) (name : String) : VdbSearchResults :=
  if pyStrip name = "" then acc
  else
    match vdbOutcome hitsOf threshold name with
    | .resolved e =>
      { acc with resolved_names := acc.resolved_names ++ [e] }
    | .ambiguous pm =>
      { acc with partial_matches := acc.partial_matches ++ [pm],
                 ambiguous_names := acc.ambiguous_names ++ [name],
                 needs_clarification := true }
    | .unmatched _ =>
      { acc with ambiguous_names := acc.ambiguous_names ++ [name],
                 needs_clarification := true }

/-- `VectorDatabaseManager.search_names` (vector_database.py 79–142;
the configured default threshold is `0.7`). -/
def search_names (hitsOf : String → List Hit) (threshold : ℚ)
    (input_names : List String) : VdbSearchResults :=
  input_names.foldl (searchStep hitsOf threshold) ⟨[], [], [], false⟩

end VectorDatabaseManager

/-! ## Clarification merge

The attendee-resolution portion of the tool
`create_meeting_with_resolved_names` (main.py 328–459): extraction of
the already-resolved users (345–352), parsing of the user's
clarification choice (354–388) and the candidate-matching loops
(390–412).  The date parsing and e-mail rendering that follow
(414–456) do not touch the attendee lists and are outside every claim.

The branch `json.loads(clarification_choice)` together with the
dict/list extraction of lines 362–374 depends on a full JSON parser; it
is abstracted as a parameter
`jsonChoices : String → Option (List PyVal)` — `some vs` models a
successful decode yielding the extracted choice values (which need
*not* be strings: `'[1]'` decodes to the single non-string choice `1`,
`'{"name": 1}'` extracts `1`, …), `none` models the `json.loads`
exception that sends the code into the line-based fallback parser of
lines 376–388.  Answers that do not start with `'{'` or `'['` never
reach that branch.

The matching loop calls `choice.lower()` (main.py 398) inside the
`for candidate in candidates` loop; on a non-string choice this raises
`AttributeError` as soon as a pending name with a non-empty candidate
list is reached, and the function-level `except` (main.py 458–459)
turns the exception into an `{"error": …}` return that carries *no*
attendees.  The merge is therefore embedded with result type
`Except String MergeResult`; the `AttributeError` message text is
abstracted to a fixed string.  The two `json.loads` calls on
`meeting_info_json`/`search_results_json` (main.py 331–332) are outside
the embedding: the session inputs are taken already decoded and
well-typed, so only answer-driven failures are modelled. -/

/-- A decoded JSON choice value, as far as the matching loop can
distinguish it: `choice.lower()` succeeds exactly on strings; every
other JSON value (number, object, array, boolean, null) raises
`AttributeError` there. -/
inductive PyVal where
  | str (s : String)
  | nonstr
deriving DecidableEq, Repr

/-- Whether a decoded choice is a string. -/
def PyVal.isStr : PyVal → Bool
  | .str _ => true
  | .nonstr => false

/-- The string of a string-valued choice. -/
def PyVal.str? : PyVal → Option String
  | .str s => some s
  | .nonstr => none

instance {ε α : Type} [DecidableEq ε] [DecidableEq α] :
    DecidableEq (Except ε α) := fun a b =>
  match a, b with
  | .ok x, .ok y =>
    match decEq x y with
    | isTrue h => isTrue (by rw [h])
    | isFalse h => isFalse (fun he => h (Except.ok.inj he))
  | .error e, .error f =>
    match decEq e f with
    | isTrue h => isTrue (by rw [h])
    | isFalse h => isFalse (fun he => h (Except.error.inj he))
  | .ok _, .error _ => isFalse (fun he => Except.noConfusion he)
  | .error _, .ok _ => isFalse (fun he => Except.noConfusion he)

/-- The condition of main.py 401–404: case-insensitive containment in
either direction, plainly or with all spaces removed — a single flat
disjunction, evaluated per candidate. -/
def matchesChoice (choice : String) (candidate : MatchCandidate) : Bool :=
  let choice_lower := pyLower choice
  let candidate_lower := pyLower candidate.full_name
  pyIn choice_lower candidate_lower ||
  pyIn candidate_lower choice_lower ||
  pyIn (pyReplace choice_lower " " "") (pyReplace candidate_lower " " "") ||
  pyIn (pyReplace candidate_lower " " "") (pyReplace choice_lower " " "")

/-- The `except` fallback parser (main.py 376–388): split the stripped
answer into lines; a non-empty line containing `". "` keeps the part
after the first `". "` and before the first `" ("`, stripped; a line
containing `" ("` keeps the part before it, stripped; any other
non-empty line is kept whole. -/
def fallbackChoices (ans : String) : List String :=
  ((splitNl (pyStrip ans)).map pyStrip).filterMap (fun line =>
    if line = "" then none
    else if pyIn ". " line then
      some (pyStrip (beforeFirst " (" (afterFirst ". " line)))
    else if pyIn " (" line then
      some (pyStrip (beforeFirst " (" line))
    else some line)

/-- `clarification_choices` (main.py 354–388): an answer that does not
start with `'{'` or `'['` becomes the single stripped label; otherwise
the abstract JSON branch applies, with the fallback parser (whose
output is always strings) on decode failure. -/
def parseChoices (jsonChoices : String → Option (List PyVal)) (ans : String) :
    List PyVal :=
  if !(startsWithChar ans '\x7b') && !(startsWithChar ans '[') then
    [.str (pyStrip ans)]
  else
    match jsonChoices ans with
    | some vs => vs
    | none => (fallbackChoices ans).map .str

/-- The innermost `for candidate in candidates` loop with its `break`,
for a string choice: the first candidate matching the choice, if any. -/
def candLoop (choice : String) : List MatchCandidate → Option MatchCandidate
  | [] => none
  | c :: cs => if matchesChoice choice c then some c else candLoop choice cs

/-- The innermost loop for an arbitrary decoded choice:
`choice_lower = choice.lower()` (main.py 398) runs inside the candidate
loop, so a non-string choice raises `AttributeError` exactly when the
candidate list is non-empty; a string choice never raises and behaves
as `candLoop`. -/
def candLoopV (choice : PyVal) (cands : List MatchCandidate) :
    Except String (Option MatchCandidate) :=
  match cands with
  | [] => .ok none
  | _ :: _ =>
    match choice with
    | .str s => .ok (candLoop s cands)
    | .nonstr => .error "AttributeError: object has no attribute 'lower'"

/-- The middle `for choice in clarification_choices` loop, threading the
`(resolved_names, user_details)` accumulator pair: each choice that
matches some candidate of the current pending name appends that
candidate's name and details; a raised `AttributeError` aborts the
whole tool call. -/
def choiceLoopV (cands : List MatchCandidate) :
    List PyVal → List String × List Person →
      Except String (List String × List Person)
  | [], st => .ok st
  | ch :: chs, st =>
    match candLoopV ch cands with
    | .error e => .error e
    | .ok none => choiceLoopV cands chs st
    | .ok (some c) =>
      choiceLoopV cands chs (st.1 ++ [c.full_name], st.2 ++ [candPerson c])

/-- The outer `for partial_match in search_results['partial_matches']`
loop (main.py 391–412), with exception propagation. -/
def acceptLoopV :
    List PartialMatchEntry → List PyVal → List String × List Person →
      Except String (List String × List Person)
  | [], _, st => .ok st
  | pm :: pms, choices, st =>
    match choiceLoopV pm.candidates choices st with
    | .error e => .error e
    | .ok st2 => acceptLoopV pms choices st2

/-- The attendee lists produced by a successful
`create_meeting_with_resolved_names` call: the `user_details` handed to
the final meeting JSON and the `resolved_names` name list used for the
e-mail body. -/
structure MergeResult where
  user_details : List Person
  resolved_names : List String
deriving DecidableEq, Repr

/-- The attendee-resolution portion of
`create_meeting_with_resolved_names` (main.py 341–412 plus the
function-level `except` at 458–459): seed the accumulators with every
already-resolved user (345–352), parse the clarification choice, then
run the matching loops; an `AttributeError` raised on a non-string
decoded choice surfaces as the `{"error": "Meeting creation failed:
…"}` return, which carries no attendees. -/
def create_meeting_attendees (jsonChoices : String → Option (List PyVal))
    (search_results : MainSearchResults) (clarification_choice : String) :
    Except String MergeResult :=
  let resolved_names :=
    search_results.resolved_names.map (fun r => r.matched_user.full_name)
  let user_details :=
    search_results.resolved_names.map (fun r => r.matched_user)
  let clarification_choices := parseChoices jsonChoices clarification_choice
  match acceptLoopV search_results.partial_matches clarification_choices
    (resolved_names, user_details) with
  | .ok st => .ok ⟨st.2, st.1⟩
  | .error e => .error ("Meeting creation failed: " ++ e)

/-- The selections that the matching loops append, expressed directly:
for each pending name (in order) and each parsed choice (in order), the
first candidate the choice matches. -/
def selectedCandidates (choices : List String) (pms : List PartialMatchEntry) :
    List MatchCandidate :=
  pms.flatMap (fun pm => choices.filterMap (fun ch => candLoop ch pm.candidates))

/-! ### The claimed merge policy, modelled from the specification

Spec §4.5 describes a different algorithm; it is transcribed here
verbatim-in-structure so that it can be compared with the code. -/

/-- Modelled from the spec: the §4.5 parsing policy — "split into
lines; for each non-empty line, strip a leading `N. ` ordinal and a
trailing `(email)` suffix if present, yielding a candidate label". -/
def specLabels (ans : String) : List String :=
  ((splitNl ans).map pyStrip).filterMap (fun line =>
    if line = "" then none
    else
      let noOrdinal := if pyIn ". " line then pyStrip (afterFirst ". " line) else line
      some (if pyIn " (" noOrdinal then pyStrip (beforeFirst " (" noOrdinal)
            else noOrdinal))

/-- Modelled from the spec: first-pass matching — "case-insensitive
substring containment in either direction (label-in-candidate OR
candidate-in-label)". -/
def specPlainMatch (label : String) (c : MatchCandidate) : Bool :=
  pyIn (pyLower label) (pyLower c.full_name) ||
  pyIn (pyLower c.full_name) (pyLower label)

/-- Modelled from the spec: the second, stricter pass "after removing
internal whitespace …, if the first pass finds nothing". -/
def specSpacelessMatch (label : String) (c : MatchCandidate) : Bool :=
  pyIn (pyReplace (pyLower label) " " "") (pyReplace (pyLower c.full_name) " " "") ||
  pyIn (pyReplace (pyLower c.full_name) " " "") (pyReplace (pyLower label) " " "")

/-- Modelled from the spec: accept, for one pending name, "the first
candidate across the pending set whose label matches", running the
whitespace-insensitive pass only when the plain pass finds nothing. -/
def specAcceptForPending (labels : List String) (cands : List MatchCandidate) :
    Option MatchCandidate :=
  match labels.findSome? (fun l => cands.find? (specPlainMatch l)) with
  | some c => some c
  | none => labels.findSome? (fun l => cands.find? (specSpacelessMatch l))

/-- Modelled from the spec: the merge output under the §4.5 policy —
already-resolved users carried through, followed by the accepted
candidate of each pending name. -/
def specMergeAttendees (search_results : MainSearchResults) (ans : String) :
    List Person :=
  search_results.resolved_names.map (fun r => r.matched_user) ++
    (search_results.partial_matches.filterMap
      (fun pm => specAcceptForPending (specLabels ans) pm.candidates)).map candPerson

/-! ## Derived notions used by the theorems -/

/-- `user_matches[uid]` — dictionary lookup in the association-list
model. -/
def lookupId (uid : Nat) (acc : List MatchCandidate) : Option MatchCandidate :=
  acc.find? (fun c => c.id == uid)

/-- The similarities of the threshold-clearing hits of one user in a
raw-hit list (the values the dictionary maximises over). -/
def simsFor (threshold : ℚ) (hits : List Hit) (uid : Nat) : List ℚ :=
  ((hits.filter (fun h => h.user_id == uid && decide (threshold ≤ 1 - h.distance))).map
    (fun h => 1 - h.distance))

/-- Invariant of the grouping loop: the dictionary keys are distinct,
and each stored candidate carries the 3-decimal rounding of the maximum
threshold-clearing similarity its user reached in the processed hits
(users with no clearing hit are absent). -/
def AggInv (threshold : ℚ) (hits : List Hit) (acc : List MatchCandidate) : Prop :=
  acc.Pairwise (fun a b => a.id ≠ b.id) ∧
  ∀ uid : Nat,
    match lookupId uid acc with
    | none => simsFor threshold hits uid = []
    | some c =>
      c.id = uid ∧
        ∃ m, (simsFor threshold hits uid).max? = some m ∧ c.similarity = round3 m

/-- The index entries contributed by one person (empty on the
`IndexError` row, where the build never reaches `collection.add`). -/
def entriesOf (variantsOf : Person → Option (List String)) (p : Person) :
    List (String × Person) :=
  match variantsOf p with
  | some raw => (variantTexts raw).map (fun v => (v, p))
  | none => []

/-- Projection: the resolved entry of an interactive-resolver outcome. -/
def MainOutcome.toResolved? : MainOutcome → Option MainResolvedEntry
  | .resolved e => some e
  | _ => none

/-- Projection: the `partial_matches` entry of an outcome. -/
def MainOutcome.toAmbiguous? : MainOutcome → Option PartialMatchEntry
  | .ambiguous pm => some pm
  | _ => none

/-- Projection: the `ambiguous_names` contribution of an outcome
(ambiguous and unmatched names alike land in that bucket). -/
def MainOutcome.pendingName? : MainOutcome → Option String
  | .resolved _ => none
  | .ambiguous pm => some pm.input_name
  | .unmatched n => some n

/-- Whether an outcome switches `needs_clarification` on. -/
def MainOutcome.needsFlag : MainOutcome → Bool
  | .resolved _ => false
  | _ => true

/-- Projection: the resolved entry of a package-resolver outcome. -/
def VdbOutcome.toResolved? : VdbOutcome → Option VdbResolvedEntry
  | .resolved e => some e
  | _ => none

/-- Projection: the `partial_matches` entry of an outcome. -/
def VdbOutcome.toAmbiguous? : VdbOutcome → Option PartialMatchEntry
  | .ambiguous pm => some pm
  | _ => none

/-- Projection: the `ambiguous_names` contribution of an outcome. -/
def VdbOutcome.pendingName? : VdbOutcome → Option String
  | .resolved _ => none
  | .ambiguous pm => some pm.input_name
  | .unmatched n => some n

/-- Whether an outcome switches `needs_clarification` on. -/
def VdbOutcome.needsFlag : VdbOutcome → Bool
  | .resolved _ => false
  | _ => true

/-! ## Rounding lemmas -/

theorem round_mono_q {x y : ℚ} (h : x ≤ y) : round x ≤ round y := by
  rw [round_eq, round_eq]
  exact Int.floor_le_floor (by linarith)

theorem round3_eq_low {m s : ℚ} (h1 : m ≤ s) (h2 : s ≤ round3 m) :
    round3 s = round3 m := by
  unfold round3 at h2 ⊢
  have h1000 : (0 : ℚ) < 1000 := by norm_num
  have hup : s * 1000 ≤ ((round (m * 1000) : ℤ) : ℚ) := (le_div_iff₀ h1000).mp h2
  have hA : round (s * 1000) ≤ round (m * 1000) := by
    have := round_mono_q hup
    rwa [round_intCast] at this
  have hB : round (m * 1000) ≤ round (s * 1000) :=
    round_mono_q (mul_le_mul_of_nonneg_right h1 (by norm_num))
  rw [le_antisymm hA hB]

theorem round3_eq_high {m s : ℚ} (h1 : round3 m ≤ s) (h2 : s ≤ m) :
    round3 s = round3 m := by
  unfold round3 at h1 ⊢
  have h1000 : (0 : ℚ) < 1000 := by norm_num
  have hdown : ((round (m * 1000) : ℤ) : ℚ) ≤ s * 1000 := (div_le_iff₀ h1000).mp h1
  have hA : round (m * 1000) ≤ round (s * 1000) := by
    have := round_mono_q hdown
    rwa [round_intCast] at this
  have hB : round (s * 1000) ≤ round (m * 1000) :=
    round_mono_q (mul_le_mul_of_nonneg_right h2 (by norm_num))
  rw [le_antisymm hB hA]

/-- How the stored rounded maximum evolves under one more value: the
dictionary's comparison `sim > round3 m` against the *rounded* stored
similarity still maintains the rounded running maximum. -/
theorem round3_max (m s : ℚ) :
    round3 (max m s) = if round3 m < s then round3 s else round3 m := by
  rcases le_total s m with h | h
  · rw [max_eq_left h]
    split
    · next hlt => exact (round3_eq_high (le_of_lt hlt) h).symm
    · rfl
  · rw [max_eq_right h]
    split
    · rfl
    · next hnlt => exact round3_eq_low h (le_of_not_lt hnlt)

/-! ## Dictionary (association list) lemmas -/

theorem lookupId_eq_none_iff {uid : Nat} {acc : List MatchCandidate} :
    lookupId uid acc = none ↔ uid ∉ acc.map (·.id) := by
  simp only [lookupId, List.find?_eq_none, List.mem_map]
  constructor
  · rintro h ⟨c, hc, rfl⟩
    simpa using h c hc
  · intro h c hc hbeq
    exact h ⟨c, hc, by simpa using hbeq⟩

theorem lookupId_of_mem {c : MatchCandidate} {acc : List MatchCandidate}
    (hpair : acc.Pairwise (fun a b => a.id ≠ b.id)) (hc : c ∈ acc) :
    lookupId c.id acc = some c := by
  induction acc with
  | nil => cases hc
  | cons a rest ih =>
    rcases List.mem_cons.mp hc with rfl | hmem
    · simp [lookupId]
    · have hne : a.id ≠ c.id := (List.pairwise_cons.mp hpair).1 c hmem
      have hrest : lookupId c.id rest = some c :=
        ih (List.pairwise_cons.mp hpair).2 hmem
      simpa [lookupId, hne] using hrest

theorem mem_of_lookupId {uid : Nat} {c : MatchCandidate} {acc : List MatchCandidate}
    (h : lookupId uid acc = some c) : c ∈ acc :=
  List.mem_of_find?_eq_some h

theorem updateUser_lookup_eq (h : Hit) (sim : ℚ) (acc : List MatchCandidate) :
    lookupId h.user_id (updateUser h sim acc) =
      some (match lookupId h.user_id acc with
            | none => ⟨h.user_id, h.full_name, h.email_address, round3 sim⟩
            | some c =>
              if c.similarity < sim then
                ⟨h.user_id, h.full_name, h.email_address, round3 sim⟩
              else c) := by
  induction acc with
  | nil => simp [updateUser, lookupId]
  | cons a rest ih =>
    by_cases ha : a.id = h.user_id
    · by_cases hsim : a.similarity < sim
      · simp [updateUser, lookupId, ha, hsim]
      · simp [updateUser, lookupId, ha, hsim]
    · simpa [updateUser, lookupId, ha] using ih

theorem updateUser_lookup_ne (h : Hit) (sim : ℚ) (acc : List MatchCandidate)
    {uid : Nat} (hne : uid ≠ h.user_id) :
    lookupId uid (updateUser h sim acc) = lookupId uid acc := by
  induction acc with
  | nil => simp [updateUser, lookupId, Ne.symm hne]
  | cons a rest ih =>
    by_cases ha : a.id = h.user_id
    · have hau : a.id ≠ uid := by rw [ha]; exact Ne.symm hne
      by_cases hsim : a.similarity < sim
      · simp [updateUser, lookupId, ha, hsim, hau, Ne.symm hne]
      · simp [updateUser, lookupId, ha, hsim, hau]
    · by_cases hau : a.id = uid
      · simp only [updateUser]
        rw [if_neg ha]
        simp [lookupId, hau]
      · simp only [updateUser] at ih ⊢
        rw [if_neg ha]
        simpa [lookupId, hau] using ih

theorem updateUser_ids (h : Hit) (sim : ℚ) (acc : List MatchCandidate) :
    (updateUser h sim acc).map (·.id) =
      if (lookupId h.user_id acc).isSome then acc.map (·.id)
      else acc.map (·.id) ++ [h.user_id] := by
  induction acc with
  | nil => simp [updateUser, lookupId]
  | cons a rest ih =>
    by_cases ha : a.id = h.user_id
    · by_cases hsim : a.similarity < sim
      · simp [updateUser, lookupId, ha, hsim]
      · simp [updateUser, lookupId, ha, hsim]
    · simp only [updateUser, if_neg ha, lookupId, List.map_cons] at ih ⊢
      rw [ih]
      have hfind : (List.find? (fun c => c.id == h.user_id) (a :: rest)).isSome
          = (List.find? (fun c => c.id == h.user_id) rest).isSome := by
        simp [ha]
      rw [hfind]
      split <;> simp

theorem updateUser_pairwise (h : Hit) (sim : ℚ) {acc : List MatchCandidate}
    (hpair : acc.Pairwise (fun a b => a.id ≠ b.id)) :
    (updateUser h sim acc).Pairwise (fun a b => a.id ≠ b.id) := by
  have key : ∀ l : List MatchCandidate,
      l.Pairwise (fun a b => a.id ≠ b.id) ↔ (l.map (·.id)).Nodup := by
    intro l
    simp [List.Nodup, List.pairwise_map]
  rw [key] at hpair ⊢
  rw [updateUser_ids]
  split
  · exact hpair
  · next hnone =>
    have : h.user_id ∉ acc.map (·.id) :=
      lookupId_eq_none_iff.mp (Option.not_isSome_iff_eq_none.mp (by simpa using hnone))
    simp [List.nodup_append, hpair, this]

/-! ## The aggregation invariant -/

theorem simsFor_append (threshold : ℚ) (hits : List Hit) (h : Hit) (uid : Nat) :
    simsFor threshold (hits ++ [h]) uid =
      simsFor threshold hits uid ++
        (if h.user_id == uid && decide (threshold ≤ 1 - h.distance) then
          [1 - h.distance] else []) := by
  simp only [simsFor, List.filter_append, List.map_append]
  congr 1
  split
  · next hcond => simp [List.filter, hcond]
  · next hcond => simp [List.filter, hcond]

theorem max?_append_single {l : List ℚ} {m : ℚ} (x : ℚ) (hm : l.max? = some m) :
    (l ++ [x]).max? = some (max m x) := by
  cases l with
  | nil => simp [List.max?] at hm
  | cons a as =>
    simp only [List.max?, Option.some_inj] at hm
    show (a :: (as ++ [x])).max? = some (max m x)
    simp only [List.max?, Option.some_inj]
    rw [List.foldl_append, hm]
    rfl

theorem aggInv_step (threshold : ℚ) (hits : List Hit) (acc : List MatchCandidate)
    (h : Hit) (inv : AggInv threshold hits acc) :
    AggInv threshold (hits ++ [h]) (applyHit threshold acc h) := by
  obtain ⟨hpair, hlook⟩ := inv
  unfold applyHit
  by_cases ht : threshold ≤ 1 - h.distance
  · rw [if_pos ht]
    refine ⟨updateUser_pairwise h _ hpair, fun uid => ?_⟩
    by_cases huid : uid = h.user_id
    · subst huid
      rw [updateUser_lookup_eq, simsFor_append]
      have hcond : (h.user_id == h.user_id && decide (threshold ≤ 1 - h.distance)) = true := by
        simp [ht]
      simp only [hcond, if_true]
      have hl := hlook h.user_id
      cases hlk : lookupId h.user_id acc with
      | none =>
        rw [hlk] at hl
        simp only [hlk]
        rw [hl]
        exact ⟨by simp, 1 - h.distance, by simp [List.max?], by simp⟩
      | some c =>
        rw [hlk] at hl
        simp only [hlk]
        obtain ⟨hcid, m, hmax, hsim⟩ := hl
        refine ⟨?_, max m (1 - h.distance), max?_append_single _ hmax, ?_⟩
        · split <;> simp [hcid]
        · rw [round3_max, apply_ite (fun x : MatchCandidate => x.similarity)]
          simp only [hsim]
    · rw [updateUser_lookup_ne h _ acc huid, simsFor_append]
      have hcond : (h.user_id == uid && decide (threshold ≤ 1 - h.distance)) = false := by
        simp [Ne.symm huid]
      rw [hcond]
      simpa using hlook uid
  · rw [if_neg ht]
    refine ⟨hpair, fun uid => ?_⟩
    rw [simsFor_append]
    have hcond : (h.user_id == uid && decide (threshold ≤ 1 - h.distance)) = false := by
      simp [ht]
    rw [hcond]
    simpa using hlook uid

theorem aggInv_fold (threshold : ℚ) :
    ∀ (rest hits : List Hit) (acc : List MatchCandidate),
      AggInv threshold hits acc →
        AggInv threshold (hits ++ rest) (rest.foldl (applyHit threshold) acc)
  | [], hits, acc, inv => by simpa using inv
  | h :: rest, hits, acc, inv => by
    have step := aggInv_step threshold hits acc h inv
    have := aggInv_fold threshold rest (hits ++ [h]) (applyHit threshold acc h) step
    simpa [List.append_assoc] using this

theorem aggInv_nil (threshold : ℚ) : AggInv threshold [] [] := by
  refine ⟨List.Pairwise.nil, fun uid => ?_⟩
  simp [lookupId, simsFor]

/-- The grouping loop satisfies the invariant over the full hit list. -/
theorem aggInv_user_matches (threshold : ℚ) (hits : List Hit) :
    AggInv threshold hits (user_matches threshold hits) := by
  have := aggInv_fold threshold hits [] [] (aggInv_nil threshold)
  simpa [user_matches] using this

/-- The dictionary values have pairwise distinct user ids. -/
theorem user_matches_pairwise (threshold : ℚ) (hits : List Hit) :
    (user_matches threshold hits).Pairwise (fun a b => a.id ≠ b.id) :=
  (aggInv_user_matches threshold hits).1

/-- Every surviving candidate carries the 3-decimal rounding of the
maximum threshold-clearing similarity of its user. -/
theorem user_matches_similarity (threshold : ℚ) (hits : List Hit)
    {c : MatchCandidate} (hc : c ∈ user_matches threshold hits) :
    ∃ m, (simsFor threshold hits c.id).max? = some m ∧ c.similarity = round3 m := by
  have inv := aggInv_user_matches threshold hits
  have hl := inv.2 c.id
  rw [lookupId_of_mem inv.1 hc] at hl
  exact hl.2

/-- Membership of a user id among the aggregated candidates is exactly
"some raw hit of that user clears the threshold". -/
theorem mem_user_matches_ids (threshold : ℚ) (hits : List Hit) (uid : Nat) :
    uid ∈ (user_matches threshold hits).map (·.id) ↔
      ∃ h ∈ hits, h.user_id = uid ∧ threshold ≤ 1 - h.distance := by
  have inv := aggInv_user_matches threshold hits
  have hchar : simsFor threshold hits uid ≠ [] ↔
      ∃ h ∈ hits, h.user_id = uid ∧ threshold ≤ 1 - h.distance := by
    simp only [simsFor, ne_eq, List.map_eq_nil_iff, List.filter_eq_nil_iff]
    push_neg
    constructor
    · rintro ⟨h, hmem, hcond⟩
      simp only [Bool.and_eq_true, beq_iff_eq, decide_eq_true_eq] at hcond
      exact ⟨h, hmem, hcond.1, hcond.2⟩
    · rintro ⟨h, hmem, h1, h2⟩
      exact ⟨h, hmem, by simp [h1, h2]⟩
  constructor
  · intro hmem
    rcases List.mem_map.mp hmem with ⟨c, hc, rfl⟩
    rcases user_matches_similarity threshold hits hc with ⟨m, hmax, _⟩
    apply hchar.mp
    intro hnil
    rw [hnil] at hmax
    simp [List.max?] at hmax
  · intro hex
    by_contra hnot
    have hnone : lookupId uid (user_matches threshold hits) = none :=
      lookupId_eq_none_iff.mpr hnot
    have := inv.2 uid
    rw [hnone] at this
    exact (hchar.mpr hex) this

/-- The aggregated candidate count equals the number of distinct user
ids with a threshold-clearing hit. -/
theorem user_matches_length (threshold : ℚ) (hits : List Hit) :
    (user_matches threshold hits).length =
      (((hits.filter (fun h => decide (threshold ≤ 1 - h.distance))).map
        (·.user_id)).toFinset).card := by
  have hnodup : ((user_matches threshold hits).map (·.id)).Nodup := by
    have := user_matches_pairwise threshold hits
    simpa [List.Nodup, List.pairwise_map] using this
  have hsame :
      ((user_matches threshold hits).map (·.id)).toFinset =
        ((hits.filter (fun h => decide (threshold ≤ 1 - h.distance))).map
          (·.user_id)).toFinset := by
    ext uid
    simp only [List.mem_toFinset, List.mem_map, List.mem_filter,
      decide_eq_true_eq]
    constructor
    · intro hmem
      rcases (mem_user_matches_ids threshold hits uid).mp
        (List.mem_map.mpr hmem) with ⟨h, hh, h1, h2⟩
      exact ⟨h, ⟨hh, h2⟩, h1⟩
    · rintro ⟨h, ⟨hh, h2⟩, h1⟩
      rcases List.mem_map.mp
        ((mem_user_matches_ids threshold hits uid).mpr ⟨h, hh, h1, h2⟩) with
        ⟨c, hc, hcid⟩
      exact ⟨c, hc, hcid⟩
  calc (user_matches threshold hits).length
      = ((user_matches threshold hits).map (·.id)).length := (List.length_map _ _).symm
    _ = ((user_matches threshold hits).map (·.id)).toFinset.card :=
        (List.toFinset_card_of_nodup hnodup).symm
    _ = _ := by rw [hsame]

/-! ## Sorting lemmas -/

theorem sortBySimilarityDesc_perm (l : List MatchCandidate) :
    List.Perm (sortBySimilarityDesc l) l :=
  List.perm_insertionSort simGE l

theorem sortBySimilarityDesc_length (l : List MatchCandidate) :
    (sortBySimilarityDesc l).length = l.length :=
  (sortBySimilarityDesc_perm l).length_eq

theorem sortBySimilarityDesc_sorted (l : List MatchCandidate) :
    (sortBySimilarityDesc l).Pairwise simGE :=
  List.sorted_insertionSort simGE l

theorem sortBySimilarityDesc_pairwise_ids {l : List MatchCandidate}
    (h : l.Pairwise (fun a b => a.id ≠ b.id)) :
    (sortBySimilarityDesc l).Pairwise (fun a b => a.id ≠ b.id) :=
  ((sortBySimilarityDesc_perm l).pairwise_iff (fun hab => hab.symm)).mpr h

theorem mem_sortBySimilarityDesc {c : MatchCandidate} {l : List MatchCandidate} :
    c ∈ sortBySimilarityDesc l ↔ c ∈ l :=
  (sortBySimilarityDesc_perm l).mem_iff

theorem mainUnique_length (hitsOf : String → List Hit) (threshold : ℚ)
    (name : String) :
    (mainUnique hitsOf threshold name).length =
      (user_matches threshold (hitsOf (pyLower name))).length :=
  sortBySimilarityDesc_length _

/-! ## Per-name classification lemmas -/

theorem mainOutcome_ambiguous_name {hitsOf : String → List Hit} {threshold : ℚ}
    {name : String} {pm : PartialMatchEntry}
    (ho : mainOutcome hitsOf threshold name = .ambiguous pm) :
    pm.input_name = name := by
  unfold mainOutcome at ho
  split at ho
  · exact absurd ho (by simp)
  · exact absurd ho (by simp)
  · cases ho; rfl

theorem vdbOutcome_ambiguous_name {hitsOf : String → List Hit} {threshold : ℚ}
    {name : String} {pm : PartialMatchEntry}
    (ho : vdbOutcome hitsOf threshold name = .ambiguous pm) :
    pm.input_name = name := by
  unfold vdbOutcome at ho
  split at ho
  · exact absurd ho (by simp)
  · exact absurd ho (by simp)
  · cases ho; rfl

theorem mainOutcome_unmatched_name {hitsOf : String → List Hit} {threshold : ℚ}
    {name n : String}
    (ho : mainOutcome hitsOf threshold name = .unmatched n) : n = name := by
  unfold mainOutcome at ho
  split at ho
  · exact absurd ho (by simp)
  · injection ho with h; exact h.symm
  · exact absurd ho (by simp)

theorem vdbOutcome_unmatched_name {hitsOf : String → List Hit} {threshold : ℚ}
    {name n : String}
    (ho : vdbOutcome hitsOf threshold name = .unmatched n) : n = name := by
  unfold vdbOutcome at ho
  split at ho
  · exact absurd ho (by simp)
  · injection ho with h; exact h.symm
  · exact absurd ho (by simp)

/-! ## The search loop, characterised bucket by bucket -/

theorem main_search_fold (hitsOf : String → List Hit) (threshold : ℚ) :
    ∀ (names : List String) (acc : MainSearchResults),
      names.foldl (VectorNameResolver.searchStep hitsOf threshold) acc =
        { resolved_names := acc.resolved_names ++
            (((names.filter (fun n => pyStrip n != "")).map
              (mainOutcome hitsOf threshold)).filterMap MainOutcome.toResolved?),
          partial_matches := acc.partial_matches ++
            (((names.filter (fun n => pyStrip n != "")).map
              (mainOutcome hitsOf threshold)).filterMap MainOutcome.toAmbiguous?),
          ambiguous_names := acc.ambiguous_names ++
            (((names.filter (fun n => pyStrip n != "")).map
              (mainOutcome hitsOf threshold)).filterMap MainOutcome.pendingName?),
          needs_clarification := acc.needs_clarification ||
            (((names.filter (fun n => pyStrip n != "")).map
              (mainOutcome hitsOf threshold)).any MainOutcome.needsFlag) }
  | [], acc => by simp
  | name :: names, acc => by
    rw [List.foldl_cons]
    by_cases hb : pyStrip name = ""
    · have hstep : VectorNameResolver.searchStep hitsOf threshold acc name = acc := by
        simp [VectorNameResolver.searchStep, hb]
      rw [hstep, main_search_fold hitsOf threshold names acc]
      have hfil : (name :: names).filter (fun n => pyStrip n != "") =
          names.filter (fun n => pyStrip n != "") := by
        simp [List.filter_cons, hb]
      rw [hfil]
    · have hfil : (name :: names).filter (fun n => pyStrip n != "") =
          name :: names.filter (fun n => pyStrip n != "") := by
        simp [List.filter_cons, hb]
      rw [hfil]
      cases ho : mainOutcome hitsOf threshold name with
      | resolved e =>
        have hstep : VectorNameResolver.searchStep hitsOf threshold acc name =
            { acc with resolved_names := acc.resolved_names ++ [e] } := by
          simp [VectorNameResolver.searchStep, hb, ho]
        rw [hstep, main_search_fold hitsOf threshold names _]
        simp [ho, MainOutcome.toResolved?, MainOutcome.toAmbiguous?,
          MainOutcome.pendingName?, MainOutcome.needsFlag]
      | ambiguous pm =>
        have hstep : VectorNameResolver.searchStep hitsOf threshold acc name =
            { acc with partial_matches := acc.partial_matches ++ [pm],
                       ambiguous_names := acc.ambiguous_names ++ [name],
                       needs_clarification := true } := by
          simp [VectorNameResolver.searchStep, hb, ho]
        rw [hstep, main_search_fold hitsOf threshold names _]
        simp [ho, MainOutcome.toResolved?, MainOutcome.toAmbiguous?,
          MainOutcome.pendingName?, MainOutcome.needsFlag,
          mainOutcome_ambiguous_name ho]
      | unmatched n =>
        have hstep : VectorNameResolver.searchStep hitsOf threshold acc name =
            { acc with ambiguous_names := acc.ambiguous_names ++ [name],
                       needs_clarification := true } := by
          simp [VectorNameResolver.searchStep, hb, ho]
        rw [hstep, main_search_fold hitsOf threshold names _]
        simp [ho, MainOutcome.toResolved?, MainOutcome.toAmbiguous?,
          MainOutcome.pendingName?, MainOutcome.needsFlag,
          mainOutcome_unmatched_name ho]

theorem vdb_search_fold (hitsOf : String → List Hit) (threshold : ℚ) :
    ∀ (names : List String) (acc : VdbSearchResults),
      names.foldl (VectorDatabaseManager.searchStep hitsOf threshold) acc =
        { resolved_names := acc.resolved_names ++
            (((names.filter (fun n => pyStrip n != "")).map
              (vdbOutcome hitsOf threshold)).filterMap VdbOutcome.toResolved?),
          partial_matches := acc.partial_matches ++
            (((names.filter (fun n => pyStrip n != "")).map
              (vdbOutcome hitsOf threshold)).filterMap VdbOutcome.toAmbiguous?),
          ambiguous_names := acc.ambiguous_names ++
            (((names.filter (fun n => pyStrip n != "")).map
              (vdbOutcome hitsOf threshold)).filterMap VdbOutcome.pendingName?),
          needs_clarification := acc.needs_clarification ||
            (((names.filter (fun n => pyStrip n != "")).map
              (vdbOutcome hitsOf threshold)).any VdbOutcome.needsFlag) }
  | [], acc => by simp
  | name :: names, acc => by
    rw [List.foldl_cons]
    by_cases hb : pyStrip name = ""
    · have hstep : VectorDatabaseManager.searchStep hitsOf threshold acc name = acc := by
        simp [VectorDatabaseManager.searchStep, hb]
      rw [hstep, vdb_search_fold hitsOf threshold names acc]
      have hfil : (name :: names).filter (fun n => pyStrip n != "") =
          names.filter (fun n => pyStrip n != "") := by
        simp [List.filter_cons, hb]
      rw [hfil]
    · have hfil : (name :: names).filter (fun n => pyStrip n != "") =
          name :: names.filter (fun n => pyStrip n != "") := by
        simp [List.filter_cons, hb]
      rw [hfil]
      cases ho : vdbOutcome hitsOf threshold name with
      | resolved e =>
        have hstep : VectorDatabaseManager.searchStep hitsOf threshold acc name =
            { acc with resolved_names := acc.resolved_names ++ [e] } := by
          simp [VectorDatabaseManager.searchStep, hb, ho]
        rw [hstep, vdb_search_fold hitsOf threshold names _]
        simp [ho, VdbOutcome.toResolved?, VdbOutcome.toAmbiguous?,
          VdbOutcome.pendingName?, VdbOutcome.needsFlag]
      | ambiguous pm =>
        have hstep : VectorDatabaseManager.searchStep hitsOf threshold acc name =
            { acc with partial_matches := acc.partial_matches ++ [pm],
                       ambiguous_names := acc.ambiguous_names ++ [name],
                       needs_clarification := true } := by
          simp [VectorDatabaseManager.searchStep, hb, ho]
        rw [hstep, vdb_search_fold hitsOf threshold names _]
        simp [ho, VdbOutcome.toResolved?, VdbOutcome.toAmbiguous?,
          VdbOutcome.pendingName?, VdbOutcome.needsFlag,
          vdbOutcome_ambiguous_name ho]
      | unmatched n =>
        have hstep : VectorDatabaseManager.searchStep hitsOf threshold acc name =
            { acc with ambiguous_names := acc.ambiguous_names ++ [name],
                       needs_clarification := true } := by
          simp [VectorDatabaseManager.searchStep, hb, ho]
        rw [hstep, vdb_search_fold hitsOf threshold names _]
        simp [ho, VdbOutcome.toResolved?, VdbOutcome.toAmbiguous?,
          VdbOutcome.pendingName?, VdbOutcome.needsFlag,
          vdbOutcome_unmatched_name ho]

/-! ## Clarification-merge lemmas -/

theorem candLoop_eq_find? (choice : String) (cands : List MatchCandidate) :
    candLoop choice cands = cands.find? (matchesChoice choice) := by
  induction cands with
  | nil => rfl
  | cons c cs ih =>
    by_cases hm : matchesChoice choice c
    · simp [candLoop, hm]
    · simp [candLoop, hm, ih]

theorem candLoopV_str (s : String) (cands : List MatchCandidate) :
    candLoopV (.str s) cands = .ok (candLoop s cands) := by
  cases cands <;> rfl

theorem choiceLoopV_str (cands : List MatchCandidate) :
    ∀ (chs : List PyVal) (st : List String × List Person),
      chs.all PyVal.isStr = true →
      choiceLoopV cands chs st =
        .ok (st.1 ++ ((chs.filterMap PyVal.str?).filterMap
              (fun s => candLoop s cands)).map (·.full_name),
             st.2 ++ ((chs.filterMap PyVal.str?).filterMap
              (fun s => candLoop s cands)).map candPerson)
  | [], st, _ => by simp [choiceLoopV]
  | ch :: chs, st, h => by
    cases ch with
    | nonstr => simp [List.all_cons, PyVal.isStr] at h
    | str s =>
      have hchs : chs.all PyVal.isStr = true := by
        simp only [List.all_cons, Bool.and_eq_true] at h
        exact h.2
      cases hc : candLoop s cands with
      | none =>
        simp only [choiceLoopV, candLoopV_str, hc]
        rw [choiceLoopV_str cands chs st hchs]
        simp [PyVal.str?, List.filterMap_cons, hc]
      | some c =>
        simp only [choiceLoopV, candLoopV_str, hc]
        rw [choiceLoopV_str cands chs
          (st.1 ++ [c.full_name], st.2 ++ [candPerson c]) hchs]
        simp [PyVal.str?, List.filterMap_cons, hc, List.append_assoc]

theorem acceptLoopV_str :
    ∀ (pms : List PartialMatchEntry) (choices : List PyVal)
      (st : List String × List Person),
      choices.all PyVal.isStr = true →
      acceptLoopV pms choices st =
        .ok (st.1 ++ (selectedCandidates (choices.filterMap PyVal.str?)
              pms).map (·.full_name),
             st.2 ++ (selectedCandidates (choices.filterMap PyVal.str?)
              pms).map candPerson)
  | [], choices, st, _ => by simp [acceptLoopV, selectedCandidates]
  | pm :: pms, choices, st, h => by
    simp only [acceptLoopV, choiceLoopV_str pm.candidates choices st h]
    rw [acceptLoopV_str pms choices _ h]
    simp [selectedCandidates, List.append_assoc]

/-- `create_meeting_with_resolved_names`, factored, on the benign path:
whenever every decoded choice is a string, the merge succeeds and the
output attendee lists are always the already-resolved users followed by
the accepted selections, in order. -/
theorem create_meeting_attendees_of_str
    (jsonChoices : String → Option (List PyVal))
    (search_results : MainSearchResults) (clarification_choice : String)
    (h : (parseChoices jsonChoices clarification_choice).all PyVal.isStr
      = true) :
    create_meeting_attendees jsonChoices search_results clarification_choice =
      .ok
        { user_details :=
            search_results.resolved_names.map (fun r => r.matched_user) ++
              (selectedCandidates
                ((parseChoices jsonChoices clarification_choice).filterMap
                  PyVal.str?)
                search_results.partial_matches).map candPerson,
          resolved_names :=
            search_results.resolved_names.map
              (fun r => r.matched_user.full_name) ++
              (selectedCandidates
                ((parseChoices jsonChoices clarification_choice).filterMap
                  PyVal.str?)
                search_results.partial_matches).map (·.full_name) } := by
  simp only [create_meeting_attendees]
  rw [acceptLoopV_str search_results.partial_matches _ _ h]

theorem choiceLoopV_ok_extends (cands : List MatchCandidate) :
    ∀ (chs : List PyVal) (st st' : List String × List Person),
      choiceLoopV cands chs st = .ok st' →
      ∃ e1 e2, st' = (st.1 ++ e1, st.2 ++ e2)
  | [], st, st', h => by
    simp only [choiceLoopV, Except.ok.injEq] at h
    exact ⟨[], [], by simp [← h]⟩
  | ch :: chs, st, st', h => by
    unfold choiceLoopV at h
    split at h
    · exact Except.noConfusion h
    · exact choiceLoopV_ok_extends cands chs st st' h
    next c hc =>
      obtain ⟨e1, e2, he⟩ := choiceLoopV_ok_extends cands chs
        (st.1 ++ [c.full_name], st.2 ++ [candPerson c]) st' h
      exact ⟨c.full_name :: e1, candPerson c :: e2,
        by simp [he, List.append_assoc]⟩

theorem acceptLoopV_ok_extends :
    ∀ (pms : List PartialMatchEntry) (choices : List PyVal)
      (st st' : List String × List Person),
      acceptLoopV pms choices st = .ok st' →
      ∃ e1 e2, st' = (st.1 ++ e1, st.2 ++ e2)
  | [], choices, st, st', h => by
    simp only [acceptLoopV, Except.ok.injEq] at h
    exact ⟨[], [], by simp [← h]⟩
  | pm :: pms, choices, st, st', h => by
    unfold acceptLoopV at h
    split at h
    · exact Except.noConfusion h
    next st2 hc =>
      obtain ⟨e1, e2, he⟩ :=
        choiceLoopV_ok_extends pm.candidates choices st st2 hc
      obtain ⟨f1, f2, hf⟩ := acceptLoopV_ok_extends pms choices st2 st' h
      exact ⟨e1 ++ f1, e2 ++ f2, by simp [hf, he, List.append_assoc]⟩

theorem candLoopV_error (ch : PyVal) (cands : List MatchCandidate)
    (e : String) (h : candLoopV ch cands = .error e) :
    e = "AttributeError: object has no attribute 'lower'" := by
  cases cands with
  | nil => exact Except.noConfusion h
  | cons c cs =>
    cases ch with
    | str s => exact Except.noConfusion h
    | nonstr => exact (Except.error.inj h).symm

theorem choiceLoopV_error (cands : List MatchCandidate) :
    ∀ (chs : List PyVal) (st : List String × List Person) (e : String),
      choiceLoopV cands chs st = .error e →
      e = "AttributeError: object has no attribute 'lower'"
  | [], st, e, h => Except.noConfusion h
  | ch :: chs, st, e, h => by
    cases hc : candLoopV ch cands with
    | error e0 =>
      simp only [choiceLoopV, hc] at h
      rw [← Except.error.inj h]
      exact candLoopV_error ch cands e0 hc
    | ok o =>
      cases o with
      | none =>
        simp only [choiceLoopV, hc] at h
        exact choiceLoopV_error cands chs st e h
      | some c =>
        simp only [choiceLoopV, hc] at h
        exact choiceLoopV_error cands chs _ e h

theorem acceptLoopV_error :
    ∀ (pms : List PartialMatchEntry) (choices : List PyVal)
      (st : List String × List Person) (e : String),
      acceptLoopV pms choices st = .error e →
      e = "AttributeError: object has no attribute 'lower'"
  | [], choices, st, e, h => Except.noConfusion h
  | pm :: pms, choices, st, e, h => by
    cases hc : choiceLoopV pm.candidates choices st with
    | error e0 =>
      simp only [acceptLoopV, hc] at h
      rw [← Except.error.inj h]
      exact choiceLoopV_error pm.candidates choices st e0 hc
    | ok st2 =>
      simp only [acceptLoopV, hc] at h
      exact acceptLoopV_error pms choices st2 e h

/-- The only failure mode of the merge is the function-level `except`
of `create_meeting_with_resolved_names` catching the `AttributeError`
raised by `choice.lower()` on a non-string decoded choice. -/
theorem create_meeting_attendees_error
    (jsonChoices : String → Option (List PyVal))
    (search_results : MainSearchResults) (clarification_choice : String)
    (e : String)
    (h : create_meeting_attendees jsonChoices search_results
      clarification_choice = .error e) :
    e = "Meeting creation failed: " ++
      "AttributeError: object has no attribute 'lower'" := by
  cases hc : acceptLoopV search_results.partial_matches
      (parseChoices jsonChoices clarification_choice)
      (search_results.resolved_names.map (fun r => r.matched_user.full_name),
       search_results.resolved_names.map (fun r => r.matched_user)) with
  | ok st =>
    simp only [create_meeting_attendees, hc] at h
    exact Except.noConfusion h
  | error e0 =>
    simp only [create_meeting_attendees, hc] at h
    rw [← Except.error.inj h,
      acceptLoopV_error search_results.partial_matches _ _ e0 hc]

/-- Parsing a non-JSON-looking answer yields the single stripped label
(necessarily a string). -/
theorem parseChoices_plain (jsonChoices : String → Option (List PyVal))
    {ans : String} (h1 : startsWithChar ans '\x7b' = false)
    (h2 : startsWithChar ans '[' = false) :
    parseChoices jsonChoices ans = [PyVal.str (pyStrip ans)] := by
  simp [parseChoices, h1, h2]

theorem selectedCandidates_single (l : String) (pms : List PartialMatchEntry) :
    selectedCandidates [l] pms =
      pms.filterMap (fun pm => pm.candidates.find? (matchesChoice l)) := by
  unfold selectedCandidates
  induction pms with
  | nil => rfl
  | cons pm pms ih =>
    rw [List.flatMap_cons]
    cases hc : candLoop l pm.candidates with
    | none =>
      have hf : List.find? (matchesChoice l) pm.candidates = none := by
        rw [← candLoop_eq_find?]; exact hc
      simp only [List.filterMap_cons, List.filterMap_nil, hc, hf,
        List.nil_append] at ih ⊢
      exact ih
    | some c =>
      have hf : List.find? (matchesChoice l) pm.candidates = some c := by
        rw [← candLoop_eq_find?]; exact hc
      simp only [List.filterMap_cons, List.filterMap_nil, hc, hf] at ih ⊢
      simp [ih]

/-! ## Index-build lemmas -/

theorem mem_variantTexts {v : String} {raw : List String} :
    v ∈ variantTexts raw ↔ v ∈ raw ∧ pyStrip v ≠ "" := by
  simp [variantTexts, List.mem_filter, List.mem_dedup]

theorem indexEntries_eq (variantsOf : Person → Option (List String)) :
    ∀ pop : List Person,
      indexEntries variantsOf pop =
        (if pop.all (fun p => (variantsOf p).isSome) then
          Except.ok (pop.flatMap (entriesOf variantsOf))
         else Except.error "IndexError: list index out of range")
  | [] => by simp [indexEntries]
  | p :: pop => by
    rw [indexEntries]
    cases hv : variantsOf p with
    | none => simp [List.all_cons, hv]
    | some raw =>
      rw [indexEntries_eq variantsOf pop]
      by_cases hall : pop.all (fun p => (variantsOf p).isSome)
      · simp [List.all_cons, hv, hall, entriesOf, Except.map]
      · simp [List.all_cons, hv, hall, Except.map]

/-! ## Small facts about empty-label matching -/

theorem containsChars_nil (l : List Char) : containsChars [] l = true := by
  cases l <;> simp [containsChars, List.isPrefixOf]

theorem pyIn_empty (s : String) : pyIn "" s = true := by
  have : ("" : String).data = [] := rfl
  rw [pyIn, this, containsChars_nil]

/-- The empty choice label matches every candidate (Python's
`"" in s` is `True`), so an empty clarification answer silently accepts
the *first* candidate of every pending name. -/
theorem matchesChoice_empty (c : MatchCandidate) : matchesChoice "" c = true := by
  have h1 : pyLower "" = "" := rfl
  simp only [matchesChoice, h1, pyIn_empty, Bool.true_or]

theorem find?_of_all_true {α : Type} {p : α → Bool} (hall : ∀ a, p a = true) :
    ∀ l : List α, l.find? p = l.head?
  | [] => rfl
  | a :: l => by rw [List.find?_cons_of_pos _ (hall a), List.head?_cons]

/-! ## Claims C4, C5, C6 — the clarification merge -/

/-- C4 (amended): whenever the merge returns a meeting at all, its
`user_details` starts with every already-resolved attendee, unchanged
(same id, full name and email) and in order.  But not every answer
produces a meeting: an answer whose JSON decoding yields a non-string
choice (e.g. `"[1]"`) makes `choice.lower()` raise `AttributeError`,
and the function-level `except` returns an error object that omits
*all* attendees, the already-resolved ones included — so the
preservation guarantee is conditional on success, not universal. -/
theorem c4_resolved_names_preserved
    (jsonChoices : String → Option (List PyVal))
    (search_results : MainSearchResults) (clarification_choice : String)
    (result : MergeResult)
    (h : create_meeting_attendees jsonChoices search_results
      clarification_choice = .ok result) :
    ∃ extra,
      result.user_details =
        search_results.resolved_names.map (fun r => r.matched_user) ++ extra := by
  cases hc : acceptLoopV search_results.partial_matches
      (parseChoices jsonChoices clarification_choice)
      (search_results.resolved_names.map (fun r => r.matched_user.full_name),
       search_results.resolved_names.map (fun r => r.matched_user)) with
  | error e0 =>
    simp only [create_meeting_attendees, hc] at h
    exact Except.noConfusion h
  | ok st =>
    simp only [create_meeting_attendees, hc] at h
    obtain ⟨e1, e2, he⟩ := acceptLoopV_ok_extends
      search_results.partial_matches _ _ st hc
    refine ⟨e2, ?_⟩
    rw [← Except.ok.inj h, he]

theorem c4_resolved_names_preserved_witness :
    ∃ extra,
      (MergeResult.mk [⟨10, "Arda Orçun", "arda.orcun@company.com"⟩]
          ["Arda Orçun"]).user_details =
        ([⟨"Arda", ⟨10, "Arda Orçun", "arda.orcun@company.com"⟩,
            "vector_auto", mkRat 9 10⟩] : List MainResolvedEntry).map
          (fun r => r.matched_user) ++ extra :=
  c4_resolved_names_preserved (fun _ => none)
    ⟨[⟨"Arda", ⟨10, "Arda Orçun", "arda.orcun@company.com"⟩,
        "vector_auto", mkRat 9 10⟩],
      [⟨"Ahmet", [⟨1, "Ahmet Yılmaz", "ahmet.yilmaz@company.com", mkRat 8 10⟩]⟩],
      ["Ahmet"], true⟩ "Zzzqqq"
    ⟨[⟨10, "Arda Orçun", "arda.orcun@company.com"⟩], ["Arda Orçun"]⟩
    (by decide)

/-- C4 (counterexample): the original claim promises the resolved
attendees survive into the output for *every* answer.  For the answer
`"[1]"` (which starts with `'['`, so the JSON branch runs) with the
decoder returning the non-string element Python's `json.loads` produces,
`choice.lower()` raises `AttributeError`, the `except` at the end of
`create_meeting_with_resolved_names` catches it, and the result is an
error object carrying no attendee list at all — the already-resolved
`Arda Orçun` is lost. -/
theorem c4_counterexample :
    create_meeting_attendees (fun _ => some [PyVal.nonstr])
        ⟨[⟨"Arda", ⟨10, "Arda Orçun", "arda.orcun@company.com"⟩,
            "vector_auto", mkRat 9 10⟩],
          [⟨"Ahmet", [⟨1, "Ahmet Yılmaz", "ahmet.yilmaz@company.com",
            mkRat 8 10⟩]⟩],
          ["Ahmet"], true⟩ "[1]" =
      .error ("Meeting creation failed: " ++
        "AttributeError: object has no attribute 'lower'") ∧
    startsWithChar "[1]" '[' = true :=
  ⟨by decide, by decide⟩

/-- C5 (amended): `create_meeting_with_resolved_names` never fails with
an `Unresolved`-style error — no such error exists in the code.
Whenever every decoded choice is a string (in particular for every
answer not starting with a brace or bracket), the merge succeeds and
its attendee list is the already-resolved users followed by the
accepted selections; a pending name none of whose candidates matches is
silently dropped.  The only failure mode is the caught `AttributeError`
from `choice.lower()` on a non-string JSON-decoded choice, reported as
`"Meeting creation failed: ..."`.  The empty answer (one empty label,
which matches everything by empty-substring containment) silently
auto-picks the *first* candidate of every pending name. -/
theorem c5_merge_never_fails (jsonChoices : String → Option (List PyVal))
    (search_results : MainSearchResults) :
    (∀ clarification_choice,
      (parseChoices jsonChoices clarification_choice).all PyVal.isStr = true →
      create_meeting_attendees jsonChoices search_results clarification_choice =
        .ok
          { user_details :=
              search_results.resolved_names.map (fun r => r.matched_user) ++
                (selectedCandidates
                  ((parseChoices jsonChoices clarification_choice).filterMap
                    PyVal.str?)
                  search_results.partial_matches).map candPerson,
            resolved_names :=
              search_results.resolved_names.map
                (fun r => r.matched_user.full_name) ++
                (selectedCandidates
                  ((parseChoices jsonChoices clarification_choice).filterMap
                    PyVal.str?)
                  search_results.partial_matches).map (·.full_name) }) ∧
    (∀ clarification_choice e,
      create_meeting_attendees jsonChoices search_results clarification_choice =
        .error e →
      e = "Meeting creation failed: " ++
        "AttributeError: object has no attribute 'lower'") ∧
    ∃ result,
      create_meeting_attendees jsonChoices search_results "" = .ok result ∧
      result.user_details =
        search_results.resolved_names.map (fun r => r.matched_user) ++
          (search_results.partial_matches.filterMap
            (fun pm => pm.candidates.head?)).map candPerson := by
  refine ⟨fun clarification_choice h =>
    create_meeting_attendees_of_str jsonChoices search_results
      clarification_choice h,
    fun clarification_choice e h =>
      create_meeting_attendees_error jsonChoices search_results
        clarification_choice e h, ?_⟩
  have hp : parseChoices jsonChoices "" = [PyVal.str ""] :=
    parseChoices_plain jsonChoices (by decide) (by decide)
  refine ⟨_, create_meeting_attendees_of_str jsonChoices search_results ""
    (by rw [hp]; rfl), ?_⟩
  rw [hp]
  have hfm : ([PyVal.str ""].filterMap PyVal.str?) = [""] := rfl
  rw [hfm, selectedCandidates_single]
  have hfind : (fun pm : PartialMatchEntry =>
      pm.candidates.find? (matchesChoice "")) =
      (fun pm : PartialMatchEntry => pm.candidates.head?) :=
    funext fun pm => find?_of_all_true matchesChoice_empty pm.candidates
  rw [hfind]

theorem c5_merge_never_fails_witness :
    (parseChoices (fun _ => none) "Ahmet Yılmaz").all PyVal.isStr = true ∧
    create_meeting_attendees (fun _ => none)
        ⟨[⟨"Arda", ⟨10, "Arda Orçun", "arda.orcun@company.com"⟩,
            "vector_auto", mkRat 9 10⟩],
          [⟨"Ahmet", [⟨1, "Ahmet Yılmaz", "ahmet.yilmaz@company.com",
            mkRat 8 10⟩]⟩],
          ["Ahmet"], true⟩ "Ahmet Yılmaz" =
      .ok
        { user_details :=
            ([⟨"Arda", ⟨10, "Arda Orçun", "arda.orcun@company.com"⟩,
                "vector_auto", mkRat 9 10⟩] : List MainResolvedEntry).map
              (fun r => r.matched_user) ++
              (selectedCandidates
                ((parseChoices (fun _ => none) "Ahmet Yılmaz").filterMap
                  PyVal.str?)
                [⟨"Ahmet", [⟨1, "Ahmet Yılmaz", "ahmet.yilmaz@company.com",
                  mkRat 8 10⟩]⟩]).map candPerson,
          resolved_names :=
            ([⟨"Arda", ⟨10, "Arda Orçun", "arda.orcun@company.com"⟩,
                "vector_auto", mkRat 9 10⟩] : List MainResolvedEntry).map
              (fun r => r.matched_user.full_name) ++
              (selectedCandidates
                ((parseChoices (fun _ => none) "Ahmet Yılmaz").filterMap
                  PyVal.str?)
                [⟨"Ahmet", [⟨1, "Ahmet Yılmaz", "ahmet.yilmaz@company.com",
                  mkRat 8 10⟩]⟩]).map (·.full_name) } :=
  ⟨by decide,
    (c5_merge_never_fails (fun _ => none)
      ⟨[⟨"Arda", ⟨10, "Arda Orçun", "arda.orcun@company.com"⟩,
          "vector_auto", mkRat 9 10⟩],
        [⟨"Ahmet", [⟨1, "Ahmet Yılmaz", "ahmet.yilmaz@company.com",
          mkRat 8 10⟩]⟩],
        ["Ahmet"], true⟩).1 "Ahmet Yılmaz" (by decide)⟩

/-- C5 (counterexample): the claim says an answer covering no pending
candidate makes the merge fail with `ClarificationError::Unresolved`,
never returning a list that silently omits the pending name, and that
empty answers degrade to the same error.  In the code, the unmatched
answer `"Zzzqqq"` yields a successful merge whose attendees are the
already-resolved user only (the pending name `"Ahmet"` is silently
dropped), and the empty answer auto-picks `"Ahmet"`'s first candidate. -/
theorem c5_counterexample :
    create_meeting_attendees (fun _ => none)
        ⟨[⟨"Arda", ⟨10, "Arda Orçun", "arda.orcun@company.com"⟩,
            "vector_auto", mkRat 9 10⟩],
          [⟨"Ahmet", [⟨1, "Ahmet Yılmaz", "ahmet.yilmaz@company.com", mkRat 8 10⟩,
                      ⟨2, "Ahmet Kaya", "ahmet.kaya@company.com", mkRat 75 100⟩]⟩],
          ["Ahmet"], true⟩ "Zzzqqq" =
      .ok ⟨[⟨10, "Arda Orçun", "arda.orcun@company.com"⟩], ["Arda Orçun"]⟩ ∧
    create_meeting_attendees (fun _ => none)
        ⟨[⟨"Arda", ⟨10, "Arda Orçun", "arda.orcun@company.com"⟩,
            "vector_auto", mkRat 9 10⟩],
          [⟨"Ahmet", [⟨1, "Ahmet Yılmaz", "ahmet.yilmaz@company.com", mkRat 8 10⟩,
                      ⟨2, "Ahmet Kaya", "ahmet.kaya@company.com", mkRat 75 100⟩]⟩],
          ["Ahmet"], true⟩ "" =
      .ok ⟨[⟨10, "Arda Orçun", "arda.orcun@company.com"⟩,
            ⟨1, "Ahmet Yılmaz", "ahmet.yilmaz@company.com"⟩],
           ["Arda Orçun", "Ahmet Yılmaz"]⟩ :=
  ⟨by decide, by decide⟩

/-- C6 (amended): for any answer not starting with `'{'` or `'['`, the
merge treats the *whole stripped answer* as a single label (no line
splitting, no ordinal or e-mail stripping — those live only in the
JSON-decode-failure fallback), and accepts, for each pending name, the
first candidate satisfying the flat four-way disjunction
`matchesChoice` (case-insensitive containment in either direction,
plainly or with spaces removed, checked together — not as a second
pass), appended after the already-resolved users. -/
theorem c6_plain_answer_single_label
    (jsonChoices : String → Option (List PyVal))
    (search_results : MainSearchResults) (ans : String)
    (h1 : startsWithChar ans '\x7b' = false)
    (h2 : startsWithChar ans '[' = false) :
    create_meeting_attendees jsonChoices search_results ans =
      .ok
        { user_details :=
            search_results.resolved_names.map (fun r => r.matched_user) ++
              (search_results.partial_matches.filterMap
                (fun pm => pm.candidates.find?
                  (matchesChoice (pyStrip ans)))).map candPerson,
          resolved_names :=
            search_results.resolved_names.map
              (fun r => r.matched_user.full_name) ++
              (search_results.partial_matches.filterMap
                (fun pm => pm.candidates.find?
                  (matchesChoice (pyStrip ans)))).map (·.full_name) } := by
  have hp := parseChoices_plain jsonChoices h1 h2
  rw [create_meeting_attendees_of_str jsonChoices search_results ans
    (by rw [hp]; rfl), hp]
  have hfm : ([PyVal.str (pyStrip ans)].filterMap PyVal.str?) =
      [pyStrip ans] := rfl
  rw [hfm, selectedCandidates_single]

theorem c6_plain_answer_single_label_witness :
    create_meeting_attendees (fun _ => none)
        ⟨[], [⟨"Ahmet", [⟨1, "Ahmet Yılmaz", "ahmet.yilmaz@company.com",
          mkRat 8 10⟩]⟩], ["Ahmet"], true⟩ "Ahmet Yılmaz" =
      .ok
        { user_details :=
            ([] : List MainResolvedEntry).map (fun r => r.matched_user) ++
              (([⟨"Ahmet", [⟨1, "Ahmet Yılmaz", "ahmet.yilmaz@company.com",
                  mkRat 8 10⟩]⟩] : List PartialMatchEntry).filterMap
                (fun pm => pm.candidates.find?
                  (matchesChoice (pyStrip "Ahmet Yılmaz")))).map candPerson,
          resolved_names :=
            ([] : List MainResolvedEntry).map
              (fun r => r.matched_user.full_name) ++
              (([⟨"Ahmet", [⟨1, "Ahmet Yılmaz", "ahmet.yilmaz@company.com",
                  mkRat 8 10⟩]⟩] : List PartialMatchEntry).filterMap
                (fun pm => pm.candidates.find?
                  (matchesChoice (pyStrip "Ahmet Yılmaz")))).map
                (·.full_name) } :=
  c6_plain_answer_single_label (fun _ => none) _ "Ahmet Yılmaz"
    (by decide) (by decide)

/-- C6 (counterexample): the claimed policy (line splitting with
ordinal/e-mail stripping, then a plain-containment pass over the
candidates with a whitespace-insensitive *second* pass only if the
first finds nothing) disagrees with the code.  For the answer
`"Alican"` against candidates `"Ali Can Yılmaz"` and `"Alican Demir"`,
the claimed two-pass policy accepts `"Alican Demir"` (the first plain
containment match), while the code's single flat disjunction accepts
`"Ali Can Yılmaz"` (the first candidate, via space-removed
containment). -/
theorem c6_counterexample :
    create_meeting_attendees (fun _ => none)
        ⟨[], [⟨"Alican",
          [⟨6, "Ali Can Yılmaz", "alican.yilmaz@company.com", mkRat 8 10⟩,
           ⟨21, "Alican Demir", "alican.demir@company.com", mkRat 78 100⟩]⟩],
          ["Alican"], true⟩ "Alican" =
      .ok ⟨[⟨6, "Ali Can Yılmaz", "alican.yilmaz@company.com"⟩],
           ["Ali Can Yılmaz"]⟩ ∧
    specMergeAttendees
        ⟨[], [⟨"Alican",
          [⟨6, "Ali Can Yılmaz", "alican.yilmaz@company.com", mkRat 8 10⟩,
           ⟨21, "Alican Demir", "alican.demir@company.com", mkRat 78 100⟩]⟩],
          ["Alican"], true⟩ "Alican" =
      [⟨21, "Alican Demir", "alican.demir@company.com"⟩] ∧
    (⟨6, "Ali Can Yılmaz", "alican.yilmaz@company.com"⟩ : Person) ≠
      ⟨21, "Alican Demir", "alican.demir@company.com"⟩ :=
  ⟨by decide, by decide, by decide⟩

/-! ## Claims C7, C8 — index build and variant generation -/

theorem mainVariantsRaw_isSome (p : Person) :
    (mainVariantsRaw p).isSome = !(pySplit (pyLower p.full_name)).isEmpty := by
  simp only [mainVariantsRaw]
  cases pySplit (pyLower p.full_name) <;> simp

theorem vdbVariantsRaw_isSome (p : Person) :
    (vdbVariantsRaw p).isSome = !(pySplit (pyLower p.full_name)).isEmpty := by
  simp only [vdbVariantsRaw]
  cases pySplit (pyLower p.full_name) <;> simp

/-- C7 (amended): neither `__init__` checks id or email uniqueness.
The index build is fully characterised by token extraction alone: it
succeeds — on populations with duplicate ids or emails just as well,
every record (duplicates included) contributing its variant entries —
exactly when every record's lowered full name has at least one
whitespace token, and the only failure mode is the `IndexError` of
`full_name.split()[0]` on a token-less name. -/
theorem c7_build_never_checks_duplicates (pop : List Person) :
    (mainIndexEntries pop =
      (if pop.all (fun p => (mainVariantsRaw p).isSome) then
        Except.ok (pop.flatMap (entriesOf mainVariantsRaw))
       else Except.error "IndexError: list index out of range")) ∧
    (vdbIndexEntries pop =
      (if pop.all (fun p => (vdbVariantsRaw p).isSome) then
        Except.ok (pop.flatMap (entriesOf vdbVariantsRaw))
       else Except.error "IndexError: list index out of range")) ∧
    (∀ p : Person,
      (mainVariantsRaw p).isSome = !(pySplit (pyLower p.full_name)).isEmpty) ∧
    (∀ p : Person,
      (vdbVariantsRaw p).isSome = !(pySplit (pyLower p.full_name)).isEmpty) :=
  ⟨indexEntries_eq mainVariantsRaw pop, indexEntries_eq vdbVariantsRaw pop,
    mainVariantsRaw_isSome, vdbVariantsRaw_isSome⟩

/-- C7 (counterexample): the claim says the build fails with a
duplicate-identity error whenever two records share an id.  Here two
records share id `1` (and two other records share an email), yet both
builds succeed. -/
theorem c7_counterexample :
    (vdbIndexEntries [⟨1, "Ali Kaya", "ali.kaya@company.com"⟩,
        ⟨1, "Veli Demir", "veli.demir@company.com"⟩]).isOk = true ∧
    (mainIndexEntries [⟨1, "Ali Kaya", "ali.kaya@company.com"⟩,
        ⟨1, "Veli Demir", "veli.demir@company.com"⟩]).isOk = true ∧
    (vdbIndexEntries [⟨2, "Selin Demir", "ortak@company.com"⟩,
        ⟨3, "Burak Demir", "ortak@company.com"⟩]).isOk = true ∧
    ([(⟨1, "Ali Kaya", "ali.kaya@company.com"⟩ : Person),
      ⟨1, "Veli Demir", "veli.demir@company.com"⟩].map Person.id = [1, 1]) ∧
    ([(⟨2, "Selin Demir", "ortak@company.com"⟩ : Person),
      ⟨3, "Burak Demir", "ortak@company.com"⟩].map Person.email_address =
      ["ortak@company.com", "ortak@company.com"]) :=
  ⟨by decide, by decide, by decide, by decide, by decide⟩

/-- C8 (amended): for every record whose lowered full name splits into
tokens `t0 :: ts`, the variant sets of both resolvers contain (blank
derived strings excepted, which are discarded as the claim states) the
lowered full name, its diacritic-folded form, the first token, the last
token (equal to the first when the name has one token), the lowered
email local part and the local part with `'.'` replaced by spaces; the
credential-suffix-stripped full name is produced by the package
resolver only — `main.py`'s generator omits it (see the
counterexample). -/
theorem c8_variant_coverage (p : Person) (t0 : String) (ts : List String)
    (h : pySplit (pyLower p.full_name) = t0 :: ts) :
    (pyStrip (pyLower p.full_name) ≠ "" →
      pyLower p.full_name ∈ (mainVariantTexts p).getD [] ∧
      pyLower p.full_name ∈ (vdbVariantTexts p).getD []) ∧
    (pyStrip (pyReplace (pyReplace (pyReplace (pyReplace (pyReplace (pyReplace
        (pyLower p.full_name) "ç" "c") "ğ" "g") "ı" "i") "ö" "o") "ş" "s")
        "ü" "u") ≠ "" →
      pyReplace (pyReplace (pyReplace (pyReplace (pyReplace (pyReplace
        (pyLower p.full_name) "ç" "c") "ğ" "g") "ı" "i") "ö" "o") "ş" "s")
        "ü" "u" ∈ (mainVariantTexts p).getD [] ∧
      pyReplace (pyReplace (pyReplace (pyReplace (pyReplace (pyReplace
        (pyLower p.full_name) "ç" "c") "ğ" "g") "ı" "i") "ö" "o") "ş" "s")
        "ü" "u" ∈ (vdbVariantTexts p).getD []) ∧
    (pyStrip t0 ≠ "" →
      t0 ∈ (mainVariantTexts p).getD [] ∧ t0 ∈ (vdbVariantTexts p).getD []) ∧
    (pyStrip ((t0 :: ts).getLastD "") ≠ "" →
      (t0 :: ts).getLastD "" ∈ (mainVariantTexts p).getD [] ∧
      (t0 :: ts).getLastD "" ∈ (vdbVariantTexts p).getD []) ∧
    (pyStrip (pyLower (localPart p.email_address)) ≠ "" →
      pyLower (localPart p.email_address) ∈ (mainVariantTexts p).getD [] ∧
      pyLower (localPart p.email_address) ∈ (vdbVariantTexts p).getD []) ∧
    (pyStrip (pyReplace (pyLower (localPart p.email_address)) "." " ") ≠ "" →
      pyReplace (pyLower (localPart p.email_address)) "." " " ∈
        (mainVariantTexts p).getD [] ∧
      pyReplace (pyLower (localPart p.email_address)) "." " " ∈
        (vdbVariantTexts p).getD []) ∧
    (pyStrip (pyStrip (pyReplace (pyReplace (pyLower p.full_name) ", ph.d" "")
        ", phd" "")) ≠ "" →
      pyStrip (pyReplace (pyReplace (pyLower p.full_name) ", ph.d" "") ", phd" "")
        ∈ (vdbVariantTexts p).getD []) := by
  have hmain : mainVariantTexts p = some (variantTexts
      [pyLower p.full_name,
       pyReplace (pyReplace (pyReplace (pyReplace (pyReplace (pyReplace
         (pyLower p.full_name) "ç" "c") "ğ" "g") "ı" "i") "ö" "o") "ş" "s") "ü" "u",
       t0,
       if 1 < (t0 :: ts).length then (t0 :: ts).getLastD "" else pyLower p.full_name,
       pyLower (localPart p.email_address),
       pyReplace (pyLower (localPart p.email_address)) "." " "]) := by
    simp only [mainVariantTexts, mainVariantsRaw, h]
    rfl
  have hvdb : vdbVariantTexts p = some (variantTexts
      [pyLower p.full_name,
       pyReplace (pyReplace (pyReplace (pyReplace (pyReplace (pyReplace
         (pyLower p.full_name) "ç" "c") "ğ" "g") "ı" "i") "ö" "o") "ş" "s") "ü" "u",
       t0,
       if 1 < (t0 :: ts).length then (t0 :: ts).getLastD "" else pyLower p.full_name,
       pyLower (localPart p.email_address),
       pyReplace (pyLower (localPart p.email_address)) "." " ",
       pyStrip (pyReplace (pyReplace (pyLower p.full_name) ", ph.d" "") ", phd" ""),
       pyReplace (pyReplace (pyLower p.full_name) "şahin" "sahin") "çelik" "celik"]) := by
    simp only [vdbVariantTexts, vdbVariantsRaw, h]
    rfl
  rw [hmain, hvdb]
  simp only [Option.getD_some]
  refine ⟨?_, ?_, ?_, ?_, ?_, ?_, ?_⟩
  · intro hg
    exact ⟨mem_variantTexts.mpr ⟨by simp, hg⟩, mem_variantTexts.mpr ⟨by simp, hg⟩⟩
  · intro hg
    exact ⟨mem_variantTexts.mpr ⟨by simp, hg⟩, mem_variantTexts.mpr ⟨by simp, hg⟩⟩
  · intro hg
    exact ⟨mem_variantTexts.mpr ⟨by simp, hg⟩, mem_variantTexts.mpr ⟨by simp, hg⟩⟩
  · intro hg
    cases ts with
    | nil =>
      have hlast : (t0 :: ([] : List String)).getLastD "" = t0 := rfl
      rw [hlast] at hg ⊢
      exact ⟨mem_variantTexts.mpr ⟨by simp, hg⟩, mem_variantTexts.mpr ⟨by simp, hg⟩⟩
    | cons b r =>
      have hif : (if 1 < (t0 :: b :: r).length then (t0 :: b :: r).getLastD ""
          else pyLower p.full_name) = (t0 :: b :: r).getLastD "" := by
        rw [if_pos (by simp)]
      refine ⟨mem_variantTexts.mpr ⟨?_, hg⟩, mem_variantTexts.mpr ⟨?_, hg⟩⟩
      · rw [← hif]; simp
      · rw [← hif]; simp
  · intro hg
    exact ⟨mem_variantTexts.mpr ⟨by simp, hg⟩, mem_variantTexts.mpr ⟨by simp, hg⟩⟩
  · intro hg
    exact ⟨mem_variantTexts.mpr ⟨by simp, hg⟩, mem_variantTexts.mpr ⟨by simp, hg⟩⟩
  · intro hg
    exact mem_variantTexts.mpr ⟨by simp, hg⟩

theorem c8_variant_coverage_witness :
    (pyStrip (pyLower "Şahin Nicat, Ph.D") ≠ "" →
      pyLower "Şahin Nicat, Ph.D" ∈
        (mainVariantTexts ⟨9, "Şahin Nicat, Ph.D", "snicat@company.com"⟩).getD [] ∧
      pyLower "Şahin Nicat, Ph.D" ∈
        (vdbVariantTexts ⟨9, "Şahin Nicat, Ph.D", "snicat@company.com"⟩).getD []) ∧
    (pyStrip (pyReplace (pyReplace (pyReplace (pyReplace (pyReplace (pyReplace
        (pyLower "Şahin Nicat, Ph.D") "ç" "c") "ğ" "g") "ı" "i") "ö" "o") "ş" "s")
        "ü" "u") ≠ "" →
      pyReplace (pyReplace (pyReplace (pyReplace (pyReplace (pyReplace
        (pyLower "Şahin Nicat, Ph.D") "ç" "c") "ğ" "g") "ı" "i") "ö" "o") "ş" "s")
        "ü" "u" ∈
        (mainVariantTexts ⟨9, "Şahin Nicat, Ph.D", "snicat@company.com"⟩).getD [] ∧
      pyReplace (pyReplace (pyReplace (pyReplace (pyReplace (pyReplace
        (pyLower "Şahin Nicat, Ph.D") "ç" "c") "ğ" "g") "ı" "i") "ö" "o") "ş" "s")
        "ü" "u" ∈
        (vdbVariantTexts ⟨9, "Şahin Nicat, Ph.D", "snicat@company.com"⟩).getD []) ∧
    (pyStrip "şahin" ≠ "" →
      "şahin" ∈
        (mainVariantTexts ⟨9, "Şahin Nicat, Ph.D", "snicat@company.com"⟩).getD [] ∧
      "şahin" ∈
        (vdbVariantTexts ⟨9, "Şahin Nicat, Ph.D", "snicat@company.com"⟩).getD []) ∧
    (pyStrip (("şahin" :: ["nicat,", "ph.d"]).getLastD "") ≠ "" →
      ("şahin" :: ["nicat,", "ph.d"]).getLastD "" ∈
        (mainVariantTexts ⟨9, "Şahin Nicat, Ph.D", "snicat@company.com"⟩).getD [] ∧
      ("şahin" :: ["nicat,", "ph.d"]).getLastD "" ∈
        (vdbVariantTexts ⟨9, "Şahin Nicat, Ph.D", "snicat@company.com"⟩).getD []) ∧
    (pyStrip (pyLower (localPart "snicat@company.com")) ≠ "" →
      pyLower (localPart "snicat@company.com") ∈
        (mainVariantTexts ⟨9, "Şahin Nicat, Ph.D", "snicat@company.com"⟩).getD [] ∧
      pyLower (localPart "snicat@company.com") ∈
        (vdbVariantTexts ⟨9, "Şahin Nicat, Ph.D", "snicat@company.com"⟩).getD []) ∧
    (pyStrip (pyReplace (pyLower (localPart "snicat@company.com")) "." " ") ≠ "" →
      pyReplace (pyLower (localPart "snicat@company.com")) "." " " ∈
        (mainVariantTexts ⟨9, "Şahin Nicat, Ph.D", "snicat@company.com"⟩).getD [] ∧
      pyReplace (pyLower (localPart "snicat@company.com")) "." " " ∈
        (vdbVariantTexts ⟨9, "Şahin Nicat, Ph.D", "snicat@company.com"⟩).getD []) ∧
    (pyStrip (pyStrip (pyReplace (pyReplace (pyLower "Şahin Nicat, Ph.D")
        ", ph.d" "") ", phd" "")) ≠ "" →
      pyStrip (pyReplace (pyReplace (pyLower "Şahin Nicat, Ph.D") ", ph.d" "")
        ", phd" "") ∈
        (vdbVariantTexts ⟨9, "Şahin Nicat, Ph.D", "snicat@company.com"⟩).getD []) :=
  c8_variant_coverage ⟨9, "Şahin Nicat, Ph.D", "snicat@company.com"⟩
    "şahin" ["nicat,", "ph.d"] (by decide)

/-- C8 (counterexample): the claim requires the credential-stripped
variant from *both* generators; the interactive resolver's
`_index_users` never produces it.  For the real data row
`"Şahin Nicat, Ph.D"`, the stripped variant `"şahin nicat"` is indexed
by the package resolver but absent from the interactive resolver's
variant set. -/
theorem c8_counterexample :
    pyStrip (pyReplace (pyReplace (pyLower "Şahin Nicat, Ph.D") ", ph.d" "")
        ", phd" "") = "şahin nicat" ∧
    "şahin nicat" ∈
      (vdbVariantTexts ⟨9, "Şahin Nicat, Ph.D", "snicat@company.com"⟩).getD [] ∧
    "şahin nicat" ∉
      (mainVariantTexts ⟨9, "Şahin Nicat, Ph.D", "snicat@company.com"⟩).getD [] :=
  ⟨by decide, by decide, by decide⟩

/-! ## Claims C1, C2, C3 — classification, dedup, monotonicity -/

theorem exists_two_of_two_le_length {α : Type} {l : List α} (h : 2 ≤ l.length) :
    ∃ a b rest, l = a :: b :: rest := by
  cases l with
  | nil => simp at h
  | cons a tl =>
    cases tl with
    | nil => simp at h
    | cons b rest => exact ⟨a, b, rest, rfl⟩

/-- C1 (amended): for every non-blank input name, both resolvers
classify by the number of per-person groups clearing the threshold —
zero groups gives the unmatched shape (the name lands in
`ambiguous_names` with no `partial_matches` entry), exactly one gives
the resolved shape with that candidate, and two or more give the
ambiguous shape.  The interactive resolver's candidate list is sorted
by similarity descending (ties keep their first-hit order — there is no
`personId` tie-break; see the counterexample), and truncated to 5; the
package resolver's candidate list is not sorted at all. -/
theorem c1_classification (hitsOf : String → List Hit) (threshold : ℚ)
    (name : String) (hname : pyStrip name ≠ "") :
    ((mainUnique hitsOf threshold name = [] →
        VectorNameResolver.search_names hitsOf threshold [name] =
          ⟨[], [], [name], true⟩) ∧
     (∀ u, mainUnique hitsOf threshold name = [u] →
        VectorNameResolver.search_names hitsOf threshold [name] =
          ⟨[⟨name, candPerson u, "vector_auto", u.similarity⟩], [], [], false⟩) ∧
     (2 ≤ (mainUnique hitsOf threshold name).length →
        VectorNameResolver.search_names hitsOf threshold [name] =
          ⟨[], [⟨name, (mainUnique hitsOf threshold name).take 5⟩], [name], true⟩) ∧
     (mainUnique hitsOf threshold name).Pairwise simGE) ∧
    ((user_matches threshold (hitsOf (pyLower name)) = [] →
        VectorDatabaseManager.search_names hitsOf threshold [name] =
          ⟨[], [], [name], true⟩) ∧
     (∀ u, user_matches threshold (hitsOf (pyLower name)) = [u] →
        VectorDatabaseManager.search_names hitsOf threshold [name] =
          ⟨[⟨name, u, u.similarity⟩], [], [], false⟩) ∧
     (2 ≤ (user_matches threshold (hitsOf (pyLower name))).length →
        VectorDatabaseManager.search_names hitsOf threshold [name] =
          ⟨[], [⟨name, user_matches threshold (hitsOf (pyLower name))⟩],
            [name], true⟩)) := by
  refine ⟨⟨?_, ?_, ?_, sortBySimilarityDesc_sorted _⟩, ?_, ?_, ?_⟩
  · intro hmu
    simp [VectorNameResolver.search_names, VectorNameResolver.searchStep,
      mainOutcome, hname, hmu]
  · intro u hmu
    simp [VectorNameResolver.search_names, VectorNameResolver.searchStep,
      mainOutcome, hname, hmu]
  · intro h2
    obtain ⟨a, b, rest, hmu⟩ := exists_two_of_two_le_length h2
    rw [hmu]
    simp [VectorNameResolver.search_names, VectorNameResolver.searchStep,
      mainOutcome, hname, hmu]
  · intro hmu
    simp [VectorDatabaseManager.search_names, VectorDatabaseManager.searchStep,
      vdbOutcome, hname, hmu]
  · intro u hmu
    simp [VectorDatabaseManager.search_names, VectorDatabaseManager.searchStep,
      vdbOutcome, hname, hmu]
  · intro h2
    obtain ⟨a, b, rest, hmu⟩ := exists_two_of_two_le_length h2
    rw [hmu]
    simp [VectorDatabaseManager.search_names, VectorDatabaseManager.searchStep,
      vdbOutcome, hname, hmu]

unseal Rat.add Rat.sub Rat.mul Rat.inv in
theorem c1_classification_witness :
    VectorNameResolver.search_names
        (fun _ => [⟨4, "Ali Şahin", "ali.sahin@company.com", mkRat 1 4⟩])
        (mkRat 7 10) ["Ali"] =
      ⟨[⟨"Ali", ⟨4, "Ali Şahin", "ali.sahin@company.com"⟩, "vector_auto",
        mkRat 3 4⟩], [], [], false⟩ :=
  ((c1_classification
      (fun _ => [⟨4, "Ali Şahin", "ali.sahin@company.com", mkRat 1 4⟩])
      (mkRat 7 10) "Ali" (by decide)).1.2.1)
    ⟨4, "Ali Şahin", "ali.sahin@company.com", mkRat 3 4⟩ (by decide)

unseal Rat.add Rat.sub Rat.mul Rat.inv in
/-- C1 (counterexample): the claim orders ambiguous candidates "by
similarity descending with ties broken by ascending personId".  With
two persons tied at similarity `3/4` whose hits arrive in the order
id 21, id 20, the interactive resolver's stable sort keeps them in hit
order — ids `[21, 20]`, descending — so no ascending-personId tie-break
exists.  (The package resolver does not sort the list at all.) -/
theorem c1_counterexample :
    (VectorNameResolver.search_names
        (fun _ => [⟨21, "Burak Demir", "burak.demir@company.com", mkRat 1 4⟩,
                   ⟨20, "Selin Demir", "selin.demir@company.com", mkRat 1 4⟩])
        (mkRat 7 10) ["Demir"]).partial_matches.map
      (fun pm => pm.candidates.map (fun c => (c.id, c.similarity))) =
      [[(21, mkRat 3 4), (20, mkRat 3 4)]] ∧
    (VectorDatabaseManager.search_names
        (fun _ => [⟨20, "Selin Demir", "selin.demir@company.com", mkRat 29 100⟩,
                   ⟨21, "Burak Demir", "burak.demir@company.com", mkRat 1 10⟩])
        (mkRat 7 10) ["Demir"]).partial_matches.map
      (fun pm => pm.candidates.map (fun c => (c.id, c.similarity))) =
      [[(20, mkRat 71 100), (21, mkRat 9 10)]] :=
  ⟨by decide, by decide⟩

/-- C2 (amended): aggregation keeps at most one candidate per distinct
person id (in the dictionary and in the sorted list alike), and the
surviving candidate carries `round(·, 3)` of the maximum similarity
over that person's threshold-clearing variant hits — the *rounded*
maximum, not the maximum itself (see the counterexample). -/
theorem c2_dedup_and_rounded_max (threshold : ℚ) (hits : List Hit) :
    (user_matches threshold hits).Pairwise (fun a b => a.id ≠ b.id) ∧
    (sortBySimilarityDesc (user_matches threshold hits)).Pairwise
      (fun a b => a.id ≠ b.id) ∧
    ∀ c ∈ user_matches threshold hits,
      ∃ m, (simsFor threshold hits c.id).max? = some m ∧ c.similarity = round3 m :=
  ⟨user_matches_pairwise threshold hits,
   sortBySimilarityDesc_pairwise_ids (user_matches_pairwise threshold hits),
   fun _ hc => user_matches_similarity threshold hits hc⟩

unseal Rat.add Rat.sub Rat.mul Rat.inv in
theorem c2_dedup_and_rounded_max_witness :
    ∃ m, (simsFor (mkRat 7 10)
        [⟨10, "Arda Orçun", "arda.orcun@company.com", mkRat 1 4⟩]
        (MatchCandidate.id ⟨10, "Arda Orçun", "arda.orcun@company.com",
          mkRat 3 4⟩)).max? = some m ∧
      (MatchCandidate.similarity ⟨10, "Arda Orçun", "arda.orcun@company.com",
        mkRat 3 4⟩) = round3 m :=
  (c2_dedup_and_rounded_max (mkRat 7 10)
      [⟨10, "Arda Orçun", "arda.orcun@company.com", mkRat 1 4⟩]).2.2
    ⟨10, "Arda Orçun", "arda.orcun@company.com", mkRat 3 4⟩ (by decide)

unseal Rat.add Rat.sub Rat.mul Rat.inv in
/-- C2 (counterexample): the claim says the surviving candidate carries
the maximum similarity over the person's variant hits.  A single hit of
similarity `0.7004` survives carrying `round(0.7004, 3) = 0.7 ≠ 0.7004`:
the stored value is the rounded maximum, not the maximum. -/
theorem c2_counterexample :
    user_matches (mkRat 7 10)
        [⟨10, "Arda Orçun", "arda.orcun@company.com", mkRat 2996 10000⟩] =
      [⟨10, "Arda Orçun", "arda.orcun@company.com", mkRat 7 10⟩] ∧
    (1 : ℚ) - mkRat 2996 10000 = mkRat 7004 10000 ∧
    (mkRat 7 10 : ℚ) ≠ mkRat 7004 10000 :=
  ⟨by decide, by decide, by decide⟩

/-- C3: for a fixed hit function and input name, raising the threshold
never increases the aggregated candidate count, in either resolver: an
ambiguous outcome can only shrink toward resolved or unmatched as the
threshold rises. -/
theorem c3_threshold_monotone (hitsOf : String → List Hit) (name : String)
    {t1 t2 : ℚ} (h : t1 ≤ t2) :
    (user_matches t2 (hitsOf (pyLower name))).length ≤
      (user_matches t1 (hitsOf (pyLower name))).length ∧
    (mainUnique hitsOf t2 name).length ≤ (mainUnique hitsOf t1 name).length := by
  have hsub : ∀ hits : List Hit,
      (((hits.filter (fun h' => decide (t2 ≤ 1 - h'.distance))).map
        (·.user_id)).toFinset) ⊆
      (((hits.filter (fun h' => decide (t1 ≤ 1 - h'.distance))).map
        (·.user_id)).toFinset) := by
    intro hits uid hmem
    simp only [List.mem_toFinset, List.mem_map, List.mem_filter,
      decide_eq_true_eq] at hmem ⊢
    rcases hmem with ⟨h', ⟨hh, hcl⟩, rfl⟩
    exact ⟨h', ⟨hh, le_trans h hcl⟩, rfl⟩
  have hcore : (user_matches t2 (hitsOf (pyLower name))).length ≤
      (user_matches t1 (hitsOf (pyLower name))).length := by
    rw [user_matches_length, user_matches_length]
    exact Finset.card_le_card (hsub _)
  exact ⟨hcore, by rw [mainUnique_length, mainUnique_length]; exact hcore⟩

theorem c3_threshold_monotone_witness :
    (user_matches (mkRat 8 10)
        ((fun _ => [⟨1, "Ali Şahin", "ali.sahin@company.com", mkRat 1 4⟩])
          (pyLower "Ali"))).length ≤
      (user_matches (mkRat 7 10)
        ((fun _ => [⟨1, "Ali Şahin", "ali.sahin@company.com", mkRat 1 4⟩])
          (pyLower "Ali"))).length ∧
    (mainUnique (fun _ => [⟨1, "Ali Şahin", "ali.sahin@company.com", mkRat 1 4⟩])
        (mkRat 8 10) "Ali").length ≤
      (mainUnique (fun _ => [⟨1, "Ali Şahin", "ali.sahin@company.com", mkRat 1 4⟩])
        (mkRat 7 10) "Ali").length :=
  c3_threshold_monotone
    (fun _ => [⟨1, "Ali Şahin", "ali.sahin@company.com", mkRat 1 4⟩]) "Ali"
    (by decide)

/-! ## Claims C9, C10 — per-name outcomes and the top-5 bound -/

/-- C9: for every input sequence, each resolver produces exactly one
outcome per non-blank input name, in input order, and blank or
whitespace-only names are skipped entirely: all four result buckets are
order-preserving projections of the per-name outcome list of the
non-blank names (a blank name contributes to none of them). -/
theorem c9_one_outcome_per_name (hitsOf : String → List Hit) (threshold : ℚ)
    (names : List String) :
    VectorNameResolver.search_names hitsOf threshold names =
      { resolved_names :=
          (((names.filter (fun n => pyStrip n != "")).map
            (mainOutcome hitsOf threshold)).filterMap MainOutcome.toResolved?),
        partial_matches :=
          (((names.filter (fun n => pyStrip n != "")).map
            (mainOutcome hitsOf threshold)).filterMap MainOutcome.toAmbiguous?),
        ambiguous_names :=
          (((names.filter (fun n => pyStrip n != "")).map
            (mainOutcome hitsOf threshold)).filterMap MainOutcome.pendingName?),
        needs_clarification :=
          (((names.filter (fun n => pyStrip n != "")).map
            (mainOutcome hitsOf threshold)).any MainOutcome.needsFlag) } ∧
    VectorDatabaseManager.search_names hitsOf threshold names =
      { resolved_names :=
          (((names.filter (fun n => pyStrip n != "")).map
            (vdbOutcome hitsOf threshold)).filterMap VdbOutcome.toResolved?),
        partial_matches :=
          (((names.filter (fun n => pyStrip n != "")).map
            (vdbOutcome hitsOf threshold)).filterMap VdbOutcome.toAmbiguous?),
        ambiguous_names :=
          (((names.filter (fun n => pyStrip n != "")).map
            (vdbOutcome hitsOf threshold)).filterMap VdbOutcome.pendingName?),
        needs_clarification :=
          (((names.filter (fun n => pyStrip n != "")).map
            (vdbOutcome hitsOf threshold)).any VdbOutcome.needsFlag) } := by
  constructor
  · have := main_search_fold hitsOf threshold names ⟨[], [], [], false⟩
    simpa [VectorNameResolver.search_names] using this
  · have := vdb_search_fold hitsOf threshold names ⟨[], [], [], false⟩
    simpa [VectorDatabaseManager.search_names] using this

theorem mainOutcome_ambiguous_spec {hitsOf : String → List Hit} {threshold : ℚ}
    {name : String} {pm : PartialMatchEntry}
    (ho : mainOutcome hitsOf threshold name = .ambiguous pm) :
    pm.input_name = name ∧
      pm.candidates = (mainUnique hitsOf threshold name).take 5 ∧
      2 ≤ (mainUnique hitsOf threshold name).length := by
  cases hml : mainUnique hitsOf threshold name with
  | nil =>
    unfold mainOutcome at ho
    rw [hml] at ho
    exact absurd ho (by simp)
  | cons a tl =>
    cases tl with
    | nil =>
      unfold mainOutcome at ho
      rw [hml] at ho
      exact absurd ho (by simp)
    | cons b r =>
      unfold mainOutcome at ho
      rw [hml] at ho
      cases ho
      exact ⟨rfl, rfl, by simp⟩

/-- C10: in the interactive resolver, every ambiguous (`partial_matches`)
entry exposes at most 5 candidates: its candidate list is the top 5 of
the descending-similarity-sorted per-person aggregation of its input
name, truncated even when more than 5 distinct people clear the
threshold (which is exactly when at least 2 do and the sorted list is
longer than 5). -/
theorem c10_top5_truncation (hitsOf : String → List Hit) (threshold : ℚ)
    (names : List String) :
    List.Forall (fun pm =>
        pm.candidates.length ≤ 5 ∧
        pm.candidates = (mainUnique hitsOf threshold pm.input_name).take 5 ∧
        2 ≤ (mainUnique hitsOf threshold pm.input_name).length)
      (VectorNameResolver.search_names hitsOf threshold names).partial_matches := by
  rw [List.forall_iff_forall_mem]
  intro pm hpm
  have hchar := main_search_fold hitsOf threshold names ⟨[], [], [], false⟩
  unfold VectorNameResolver.search_names at hpm
  rw [hchar] at hpm
  simp only [List.nil_append] at hpm
  rcases List.mem_filterMap.mp hpm with ⟨o, homem, hosome⟩
  rcases List.mem_map.mp homem with ⟨n, _, rfl⟩
  have ho : mainOutcome hitsOf threshold n = .ambiguous pm := by
    cases hoc : mainOutcome hitsOf threshold n with
    | resolved e => simp [MainOutcome.toAmbiguous?, hoc] at hosome
    | ambiguous pm2 =>
      rw [hoc] at hosome
      simp only [MainOutcome.toAmbiguous?, Option.some_inj] at hosome
      rw [hosome]
    | unmatched s => simp [MainOutcome.toAmbiguous?, hoc] at hosome
  obtain ⟨hin, hcand, hlen⟩ := mainOutcome_ambiguous_spec ho
  subst hin
  refine ⟨?_, hcand, hlen⟩
  rw [hcand, List.length_take]
  exact min_le_left _ _
